import Mathlib

/-!
Verification of the listen-port merge engine and shield-protection
synthesizer of the aws-load-balancer-controller ingress model builder.

The Go source embedded here is `pkg/ingress/model_builder.go`
(`mergeListenPortConfigs`, the listen-port phase of
`defaultModelBuildTask.run`) together with the shield protection
synthesizer exercised by `pkg/deploy/shield` tests.

Go maps iterate in an unspecified order; a merge input map is therefore
embedded as a list of key/config pairs representing one iteration order,
and order-(in)dependence facts are stated by quantifying over
permutations of that list.
-/

namespace MLB

/-- Embedding of `k8s.io/apimachinery/pkg/types.NamespacedName`. -/
structure NamespacedName where
  ns : String
  name : String
deriving DecidableEq, Repr

/-- Go `NamespacedName.String()`: namespace, separator slash, name
(what the `%v` format verb prints). -/
def nnShow (k : NamespacedName) : String :=
  k.ns ++ "/" ++ k.name

/-- Embedding of `elbv2model.ProtocolHTTP` (a string-typed constant). -/
def ProtocolHTTP : String := "HTTP"

/-- Embedding of `elbv2model.ProtocolHTTPS` (a string-typed constant). -/
def ProtocolHTTPS : String := "HTTPS"

/-- Embedding of the `listenPortConfig` struct of
`pkg/ingress/model_builder.go` (protocol, inbound v4/v6 CIDR lists,
optional SSL policy, and TLS certificate ARNs). -/
structure listenPortConfig where
  protocol : String
  inboundCIDRv4s : List String
  inboundCIDRv6s : List String
  sslPolicy : Option String
  tlsCerts : List String
deriving DecidableEq, Repr

/-- Go `fmt` rendering of a `[]string` by the `%v` verb: elements
separated by single spaces inside square brackets. -/
def fmtList (xs : List String) : String :=
  "[" ++ String.intercalate " " xs ++ "]"

/-- Embedding of `awssdk.StringValue`: dereference a `*string`, with a
nil pointer read as the empty string. -/
def awsStringValue : Option String → String
  | none => ""
  | some s => s

/-- The value of `defaultSSLPolicy` set on the default model build task
(`model_builder.go`, task construction). -/
def defaultSSLPolicy : String := "ELBSecurityPolicy-2016-08"

/-- The message of the protocol-conflict error of
`mergeListenPortConfigs` (its `errors.Errorf` format string is
`conflicting protocol, %v: %v | %v: %v`). -/
def protocolConflictMsg (k1 : NamespacedName) (p1 : String)
    (k2 : NamespacedName) (p2 : String) : String :=
  "conflicting " ++ ("protocol, " ++ nnShow k1 ++ ": " ++ p1 ++ " | " ++ nnShow k2 ++ ": " ++ p2)

/-- The message of the inbound-CIDR-conflict error of
`mergeListenPortConfigs` (its `errors.Errorf` format string is
`conflicting sslPolicy, %v: %v, %v | %v: %v, %v` — note the `sslPolicy`
label on a CIDR conflict, copied faithfully from the source). -/
def cidrConflictMsg (k1 : NamespacedName) (v4 v6 : List String)
    (k2 : NamespacedName) (c4 c6 : List String) : String :=
  "conflicting " ++ ("sslPolicy, " ++ nnShow k1 ++ ": " ++ fmtList v4 ++ ", " ++ fmtList v6
    ++ " | " ++ nnShow k2 ++ ": " ++ fmtList c4 ++ ", " ++ fmtList c6)

/-- The message of the SSL-policy-conflict error of
`mergeListenPortConfigs` (its `errors.Errorf` format string is
`conflicting sslPolicy, %v: %v | %v: %v`). -/
def sslConflictMsg (k1 : NamespacedName) (s1 : String)
    (k2 : NamespacedName) (s2 : String) : String :=
  "conflicting " ++ ("sslPolicy, " ++ nnShow k1 ++ ": " ++ s1 ++ " | " ++ nnShow k2 ++ ": " ++ s2)

/-- The message of the internal-invariant error of
`mergeListenPortConfigs` returned when no member supplied a protocol
(`errors.New("should never happen")`). -/
def shouldNeverHappenMsg : String := "should never happen"

/-- The local merge state of `mergeListenPortConfigs`: the
`merged*` variables declared at the top of the function.
`mergedInboundCIDRsProvider` is declared and read by the source but
never assigned, exactly as in the Go code. -/
structure mergeState where
  mergedProtocol : Option String
  mergedProtocolProvider : NamespacedName
  mergedInboundCIDRv4s : List String
  mergedInboundCIDRv6s : List String
  mergedInboundCIDRsProvider : NamespacedName
  mergedSSLPolicy : Option String
  mergedSSLPolicyProvider : NamespacedName
  mergedTLSCerts : List String
deriving DecidableEq, Repr

/-- The zero values the `merged*` variables start with. -/
def initMergeState : mergeState :=
  { mergedProtocol := none
    mergedProtocolProvider := ⟨"", ""⟩
    mergedInboundCIDRv4s := []
    mergedInboundCIDRv6s := []
    mergedInboundCIDRsProvider := ⟨"", ""⟩
    mergedSSLPolicy := none
    mergedSSLPolicyProvider := ⟨"", ""⟩
    mergedTLSCerts := [] }

/-- The protocol check of one loop iteration of
`mergeListenPortConfigs`: adopt the first protocol seen, otherwise
require equality with the adopted one. -/
def stepProtocol (st : mergeState) (ingKey : NamespacedName)
    (cfg : listenPortConfig) : Except String mergeState :=
  match st.mergedProtocol with
  | none =>
      .ok { st with mergedProtocol := some cfg.protocol, mergedProtocolProvider := ingKey }
  | some p =>
      if p = cfg.protocol then .ok st
      else .error (protocolConflictMsg st.mergedProtocolProvider p ingKey cfg.protocol)

/-- Whether a config defines any inbound CIDR
(`len(cfg.inboundCIDRv4s) != 0 || len(cfg.inboundCIDRv6s) != 0`). -/
def definedCIDRs (cfg : listenPortConfig) : Bool :=
  !cfg.inboundCIDRv4s.isEmpty || !cfg.inboundCIDRv6s.isEmpty

/-- Whether the merge state has adopted inbound CIDRs
(`len(mergedInboundCIDRv4s) != 0 || len(mergedInboundCIDRv6s) != 0`). -/
def stateCIDRsDefined (st : mergeState) : Bool :=
  !st.mergedInboundCIDRv4s.isEmpty || !st.mergedInboundCIDRv6s.isEmpty

/-- The inbound-CIDR check of one loop iteration of
`mergeListenPortConfigs`: a config defining CIDRs is adopted if none
were adopted yet, and conflicts otherwise (a boolean gate, with no
value comparison). -/
def stepCIDR (st : mergeState) (ingKey : NamespacedName)
    (cfg : listenPortConfig) : Except String mergeState :=
  if definedCIDRs cfg then
    if stateCIDRsDefined st then
      .error (cidrConflictMsg st.mergedInboundCIDRsProvider
        st.mergedInboundCIDRv4s st.mergedInboundCIDRv6s
        ingKey cfg.inboundCIDRv4s cfg.inboundCIDRv6s)
    else
      .ok { st with mergedInboundCIDRv4s := cfg.inboundCIDRv4s,
                    mergedInboundCIDRv6s := cfg.inboundCIDRv6s }
  else .ok st

/-- The SSL-policy check of one loop iteration of
`mergeListenPortConfigs`: first specified policy wins, later specified
policies must match by string value; an unspecified policy is skipped. -/
def stepSSL (st : mergeState) (ingKey : NamespacedName)
    (cfg : listenPortConfig) : Except String mergeState :=
  match cfg.sslPolicy with
  | none => .ok st
  | some sp =>
      match st.mergedSSLPolicy with
      | none =>
          .ok { st with mergedSSLPolicy := some sp, mergedSSLPolicyProvider := ingKey }
      | some mp =>
          if awsStringValue (some mp) = awsStringValue (some sp) then .ok st
          else .error (sslConflictMsg st.mergedSSLPolicyProvider
            (awsStringValue (some mp)) ingKey (awsStringValue (some sp)))

/-- One `Insert` into a `sets.String`: a string set is a map keyed by
its elements, so inserting a present element is a no-op. -/
def strSetInsert (s : List String) (x : String) : List String :=
  if x ∈ s then s else s ++ [x]

/-- `mergedTLSCerts.Insert(cfg.tlsCerts...)`. -/
def strSetInsertMany (s : List String) (xs : List String) : List String :=
  xs.foldl strSetInsert s

/-- The certificate accumulation of one loop iteration of
`mergeListenPortConfigs`. -/
def stepCerts (st : mergeState) (cfg : listenPortConfig) : mergeState :=
  { st with mergedTLSCerts := strSetInsertMany st.mergedTLSCerts cfg.tlsCerts }

/-- The three conflict checks of one loop iteration of
`mergeListenPortConfigs`, in source order: protocol, CIDR gate,
SSL policy. -/
def coreStep (st : mergeState) (ingKey : NamespacedName)
    (cfg : listenPortConfig) : Except String mergeState :=
  match stepProtocol st ingKey cfg with
  | .error e => .error e
  | .ok st1 =>
      match stepCIDR st1 ingKey cfg with
      | .error e => .error e
      | .ok st2 => stepSSL st2 ingKey cfg

/-- One full iteration of the member loop of `mergeListenPortConfigs`:
protocol check, CIDR gate, SSL-policy check, certificate accumulation,
in source order. -/
def mergeStep (st : mergeState) (ingKey : NamespacedName)
    (cfg : listenPortConfig) : Except String mergeState :=
  match coreStep st ingKey cfg with
  | .error e => .error e
  | .ok st3 => .ok (stepCerts st3 cfg)

/-- The member loop of `mergeListenPortConfigs`, over one iteration
order of the input map. -/
def mergeLoop (st : mergeState) :
    List (NamespacedName × listenPortConfig) → Except String mergeState
  | [] => .ok st
  | (k, c) :: rest =>
      match mergeStep st k c with
      | .error e => .error e
      | .ok st1 => mergeLoop st1 rest

/-- Lexicographic comparison of character lists by code point (the
order `sort.Strings` induces on the byte representation). -/
def charListLe : List Char → List Char → Bool
  | _ :: _, [] => false
  | [], _ => true
  | x :: xs, y :: ys =>
      if x.toNat < y.toNat then true
      else if y.toNat < x.toNat then false
      else charListLe xs ys

/-- Lexicographic string comparison, computable by the kernel. -/
def strLeB (a b : String) : Bool :=
  charListLe a.data b.data

/-- `sets.String.List()`: the sorted slice of the set elements. -/
def strSetList (s : List String) : List String :=
  s.insertionSort (fun a b => strLeB a b = true)

/-- The epilogue of `mergeListenPortConfigs`: fail if no protocol was
ever adopted, default the inbound CIDRs to allow-all when none were
adopted, default the SSL policy when the protocol is HTTPS and none was
adopted, and return the merged config. -/
def mergeFinalize (dSSL : String) (st : mergeState) : Except String listenPortConfig :=
  match st.mergedProtocol with
  | none => .error shouldNeverHappenMsg
  | some p =>
      let v4 := if !stateCIDRsDefined st then st.mergedInboundCIDRv4s ++ ["0.0.0.0/0"]
                else st.mergedInboundCIDRv4s
      let v6 := if !stateCIDRsDefined st then st.mergedInboundCIDRv6s ++ ["::/0"]
                else st.mergedInboundCIDRv6s
      let ssl := if p == ProtocolHTTPS && st.mergedSSLPolicy.isNone
                 then some dSSL else st.mergedSSLPolicy
      .ok { protocol := p
            inboundCIDRv4s := v4
            inboundCIDRv6s := v6
            sslPolicy := ssl
            tlsCerts := strSetList st.mergedTLSCerts }

/-- Embedding of `mergeListenPortConfigs` of
`pkg/ingress/model_builder.go`: `dSSL` is the `defaultSSLPolicy` field
of the task, `l` is one iteration order of the
member-to-config map. -/
def mergeListenPortConfigs (dSSL : String)
    (l : List (NamespacedName × listenPortConfig)) : Except String listenPortConfig :=
  match mergeLoop initMergeState l with
  | .error e => .error e
  | .ok st => mergeFinalize dSSL st

/-! ### The listen-port phase of `defaultModelBuildTask.run`

Lines 148-171 of `model_builder.go`: per member, an external
collaborator (`computeIngressListenPortConfigByPort`) computes a
port-to-config map; a compute error is returned as-is and aborts the
build. The per-member maps are then aggregated per port and each port
is merged, a merge error being wrapped with the port. The phase result
(the merged config per port) feeds the later build steps, which are
outside the code decided by these claims. -/

/-- `errors.Wrapf(err, msg)`: the wrapped error prints as the message,
a colon and a space, then the cause. -/
def wrapErr (msg : String) (cause : String) : String :=
  msg ++ ": " ++ cause

/-- The first loop of `run`: call the per-member collaborator on each
member in slice order and return the first error as-is
(`if err != nil { return err }`). -/
def collectMemberConfigs (compute : NamespacedName → Except String (List (Int × listenPortConfig))) :
    List NamespacedName → Except String (List (NamespacedName × List (Int × listenPortConfig)))
  | [] => .ok []
  | m :: rest =>
      match compute m with
      | .error e => .error e
      | .ok cfgMap =>
          match collectMemberConfigs compute rest with
          | .error e => .error e
          | .ok tail => .ok ((m, cfgMap) :: tail)

/-- Lookup of one port in a per-member port-to-config map (Go map
keys are unique; the first binding is the binding). -/
def lookupPort (p : Int) (m : List (Int × listenPortConfig)) : Option listenPortConfig :=
  (m.find? (fun x => x.1 == p)).map (·.2)

/-- The ports present across all member maps, first appearance order
(one iteration order of `listenPortConfigsByPort`). -/
def portsOf (ms : List (NamespacedName × List (Int × listenPortConfig))) : List Int :=
  (ms.flatMap (fun m => m.2.map (·.1))).dedup

/-- The aggregation of `run`: for each port, the member-to-config
entries of the members whose map contains that port, in member order
(one iteration order of the inner Go map). -/
def groupByPort (ms : List (NamespacedName × List (Int × listenPortConfig))) :
    List (Int × List (NamespacedName × listenPortConfig)) :=
  (portsOf ms).map (fun p =>
    (p, ms.filterMap (fun m => (lookupPort p m.2).map (fun c => (m.1, c)))))

/-- The second loop of `run`: merge each port, wrapping a merge error
with `failed to merge listPort config for port: %v`. -/
def mergeAllPorts (dSSL : String) :
    List (Int × List (NamespacedName × listenPortConfig)) →
    Except String (List (Int × listenPortConfig))
  | [] => .ok []
  | (p, cfgs) :: rest =>
      match mergeListenPortConfigs dSSL cfgs with
      | .error e => .error (wrapErr ("failed to merge listPort config for port: " ++ toString p) e)
      | .ok merged =>
          match mergeAllPorts dSSL rest with
          | .error e => .error e
          | .ok tail => .ok ((p, merged) :: tail)

/-- The listen-port phase of `run` (lines 148-171 of
`model_builder.go`): collect the per-member config maps, aggregate by
port, merge each port. An error from the per-member collaborator or
from a merge aborts the phase and hence the whole build. -/
def runListenPortPhase (dSSL : String)
    (compute : NamespacedName → Except String (List (Int × listenPortConfig)))
    (members : List NamespacedName) : Except String (List (Int × listenPortConfig)) :=
  match collectMemberConfigs compute members with
  | .error e => .error e
  | .ok ms => mergeAllPorts dSSL (groupByPort ms)

end MLB

namespace Shield

/-- Modelled from the spec: the desired-state record of one shield
Protection side-resource, an activation flag plus the protected
resource ARN (the Token resolved to a concrete identifier at synthesis
time). The `pkg/model/shield` sources are not in the repository
snapshot; the shape follows spec section 3 and the
`pkg/deploy/shield` tests. -/
structure ProtectionSpec where
  enabled : Bool
  resourceARN : String
deriving DecidableEq, Repr

/-- The live-state record returned by the protection manager
(spec section 3: name and id, used only to decide deletion
eligibility). -/
structure ProtectionInfo where
  name : String
  id : String
deriving DecidableEq, Repr

/-- The ownership marker of the controller, the exact string the
`pkg/deploy/shield` tests expect on create and compare on delete. -/
def ownershipMarker : String := "managed by aws-load-balancer-controller"

/-- One provider call issued by the synthesizer. -/
inductive ManagerCall where
  | create (arn : String) (marker : String)
  | delete (arn : String) (id : String)
deriving DecidableEq, Repr

/-- Modelled from the spec: the per-resource reconciliation of the
protection synthesizer (`pkg/deploy/shield` Synthesize, not in the
repository snapshot; spec section 4.4). The live lookup may fail; on
success: no live record and enabled means create with the ownership
marker; a live record carrying the marker and disabled means delete; a
live record not carrying the marker is left untouched regardless of
the flag; a live record with the marker and enabled means no action. -/
def synthesizeOne (getProtection : String → Except String (Option ProtectionInfo))
    (p : ProtectionSpec) : Except String (List ManagerCall) :=
  match getProtection p.resourceARN with
  | .error e => .error e
  | .ok none =>
      if p.enabled then .ok [.create p.resourceARN ownershipMarker] else .ok []
  | .ok (some info) =>
      if info.name = ownershipMarker then
        if p.enabled then .ok [] else .ok [.delete p.resourceARN info.id]
      else .ok []

/-- Modelled from the spec: one synthesizer pass over the desired
Protection resources listed from the stack (spec section 4.4; an empty
desired list performs no live-state read and succeeds). -/
def synthesize (getProtection : String → Except String (Option ProtectionInfo)) :
    List ProtectionSpec → Except String (List ManagerCall)
  | [] => .ok []
  | p :: rest =>
      match synthesizeOne getProtection p with
      | .error e => .error e
      | .ok calls =>
          match synthesize getProtection rest with
          | .error e => .error e
          | .ok tail => .ok (calls ++ tail)

/-- Whether a call list contains a create or delete touching a given
ARN. -/
def touchesARN (calls : List ManagerCall) (arn : String) : Bool :=
  calls.any (fun c => match c with
    | .create a _ => a == arn
    | .delete a _ => a == arn)

end Shield

/-! ## Proof-layer helper definitions -/

namespace MLB

/-- The state produced by one conflict-free loop iteration (the
characterization target for `mergeStep`). -/
def stepResult (st : mergeState) (ingKey : NamespacedName)
    (cfg : listenPortConfig) : mergeState :=
  { mergedProtocol := some cfg.protocol
    mergedProtocolProvider :=
      match st.mergedProtocol with
      | none => ingKey
      | some _ => st.mergedProtocolProvider
    mergedInboundCIDRv4s :=
      if definedCIDRs cfg then cfg.inboundCIDRv4s else st.mergedInboundCIDRv4s
    mergedInboundCIDRv6s :=
      if definedCIDRs cfg then cfg.inboundCIDRv6s else st.mergedInboundCIDRv6s
    mergedInboundCIDRsProvider := st.mergedInboundCIDRsProvider
    mergedSSLPolicy :=
      match st.mergedSSLPolicy with
      | none => cfg.sslPolicy
      | some mp => some mp
    mergedSSLPolicyProvider :=
      match st.mergedSSLPolicy, cfg.sslPolicy with
      | none, some _ => ingKey
      | _, _ => st.mergedSSLPolicyProvider
    mergedTLSCerts := strSetInsertMany st.mergedTLSCerts cfg.tlsCerts }

/-- All members of an input declare protocol `p`. -/
def protosOK (p : String) (l : List (NamespacedName × listenPortConfig)) : Prop :=
  ∀ x ∈ l, x.2.protocol = p

/-- Every member either omits the SSL policy or declares the value `v`. -/
def sslAgreeVal (v : String) (l : List (NamespacedName × listenPortConfig)) : Prop :=
  ∀ x ∈ l, x.2.sslPolicy = none ∨ x.2.sslPolicy = some v

/-- The number of members defining a non-empty CIDR set. -/
def cidrCount (l : List (NamespacedName × listenPortConfig)) : Nat :=
  l.countP (fun x => definedCIDRs x.2)

/-- The first SSL policy specified by any member, in iteration order. -/
def firstSSL (l : List (NamespacedName × listenPortConfig)) : Option String :=
  l.findSome? (fun x => x.2.sslPolicy)

/-- The first member defining a non-empty CIDR set, in iteration
order. -/
def firstCIDRDef (l : List (NamespacedName × listenPortConfig)) :
    Option (NamespacedName × listenPortConfig) :=
  l.find? (fun x => definedCIDRs x.2)

/-- A merge state with the accumulated certificates dropped (used to
state that the conflict checks never read them). -/
def eraseC (st : mergeState) : mergeState :=
  { st with mergedTLSCerts := [] }

/-- A member config with its certificates dropped. -/
def eraseCfg (c : listenPortConfig) : listenPortConfig :=
  { c with tlsCerts := [] }

/-- An input with all certificates dropped. -/
def eraseL (l : List (NamespacedName × listenPortConfig)) :
    List (NamespacedName × listenPortConfig) :=
  l.map (fun x => (x.1, eraseCfg x.2))

/-- The certificate accumulator over a whole input. -/
def certsAcc (s : List String) (l : List (NamespacedName × listenPortConfig)) : List String :=
  l.foldl (fun acc x => strSetInsertMany acc x.2.tlsCerts) s

/-- Whether the first character list starts with the second. -/
def startsWithChars : List Char → List Char → Bool
  | _, [] => true
  | [], _ :: _ => false
  | a :: as, b :: bs => a == b && startsWithChars as bs

/-- Whether a character list occurs contiguously inside another. -/
def containsChars (s sub : List Char) : Bool :=
  match s with
  | [] => startsWithChars ([] : List Char) sub
  | _ :: rest => startsWithChars s sub || containsChars rest sub

/-- Whether `sub` occurs as a substring of `s` (used to state that an
error message does or does not mention an identity). -/
def strContainsSub (s sub : String) : Bool :=
  containsChars s.data sub.data

instance {e a : Type} [DecidableEq e] [DecidableEq a] : DecidableEq (Except e a) := fun x y =>
  match x, y with
  | .error u, .error v =>
      if h : u = v then isTrue (by rw [h]) else isFalse (by intro hc; cases hc; exact h rfl)
  | .ok u, .ok v =>
      if h : u = v then isTrue (by rw [h]) else isFalse (by intro hc; cases hc; exact h rfl)
  | .error _, .ok _ => isFalse (by intro hc; cases hc)
  | .ok _, .error _ => isFalse (by intro hc; cases hc)

instance strLeB_isTotal : IsTotal String (fun a b => strLeB a b = true) where
  total := by
    have h : ∀ x y : List Char, charListLe x y = true ∨ charListLe y x = true := by
      intro x
      induction x with
      | nil => intro y; exact Or.inl rfl
      | cons a as ih =>
          intro y
          cases y with
          | nil => exact Or.inr rfl
          | cons b bs =>
              by_cases hab : a.toNat < b.toNat
              · exact Or.inl (by simp [charListLe, hab])
              · by_cases hba : b.toNat < a.toNat
                · exact Or.inr (by simp [charListLe, hba])
                · rcases ih bs with h2 | h2
                  · exact Or.inl (by simp [charListLe, hab, hba, h2])
                  · exact Or.inr (by simp [charListLe, hab, hba, h2])
    intro a b
    exact h a.data b.data

instance strLeB_isTrans : IsTrans String (fun a b => strLeB a b = true) where
  trans := by
    have h : ∀ x y z : List Char,
        charListLe x y = true → charListLe y z = true → charListLe x z = true := by
      intro x
      induction x with
      | nil => intro y z _ _; rfl
      | cons a as ih =>
          intro y z hxy hyz
          cases y with
          | nil => simp [charListLe] at hxy
          | cons b bs =>
              cases z with
              | nil => simp [charListLe] at hyz
              | cons c cs =>
                  simp only [charListLe] at hxy hyz ⊢
                  by_cases hab : a.toNat < b.toNat
                  · by_cases hbc : b.toNat < c.toNat
                    · have hac : a.toNat < c.toNat := by omega
                      simp [hac]
                    · by_cases hcb : c.toNat < b.toNat
                      · simp [hbc, hcb] at hyz
                      · have hac : a.toNat < c.toNat := by omega
                        simp [hac]
                  · by_cases hba : b.toNat < a.toNat
                    · simp [hab, hba] at hxy
                    · by_cases hbc : b.toNat < c.toNat
                      · have hac : a.toNat < c.toNat := by omega
                        simp [hac]
                      · by_cases hcb : c.toNat < b.toNat
                        · simp [hbc, hcb] at hyz
                        · have hac1 : ¬ a.toNat < c.toNat := by omega
                          have hca : ¬ c.toNat < a.toNat := by omega
                          simp [hab, hba] at hxy
                          simp [hbc, hcb] at hyz
                          simp [hac1, hca]
                          exact ih bs cs hxy hyz
    intro a b c
    exact h a.data b.data c.data

instance strLeB_isAntisymm : IsAntisymm String (fun a b => strLeB a b = true) where
  antisymm := by
    have hinj : Function.Injective Char.toNat :=
      StrictMono.injective (fun _ _ hh => hh)
    have h : ∀ x y : List Char, charListLe x y = true → charListLe y x = true → x = y := by
      intro x
      induction x with
      | nil =>
          intro y _ hyx
          cases y with
          | nil => rfl
          | cons b bs => simp [charListLe] at hyx
      | cons a as ih =>
          intro y hxy hyx
          cases y with
          | nil => simp [charListLe] at hxy
          | cons b bs =>
              simp only [charListLe] at hxy hyx
              by_cases hab : a.toNat < b.toNat
              · have hnb : ¬ b.toNat < a.toNat := by omega
                simp [hnb, hab] at hyx
              · by_cases hba : b.toNat < a.toNat
                · simp [hab, hba] at hxy
                · have heq : a = b := hinj (by omega)
                  simp [hab, hba] at hxy hyx
                  rw [heq, ih bs hxy hyx]
    intro a b hab hba
    exact String.ext (h a.data b.data hab hba)

end MLB

/-! ## Helper lemmas -/

namespace MLB

theorem append_ne_of_take_ne (a b r r' : String) (n : Nat)
    (ha : n ≤ a.data.length) (hb : n ≤ b.data.length)
    (hne : a.data.take n ≠ b.data.take n) : a ++ r ≠ b ++ r' := by
  intro h
  apply hne
  have h2 := congrArg (fun s => s.data.take n) h
  simp only [String.data_append] at h2
  rw [List.take_append_eq_append_take, List.take_append_eq_append_take,
    Nat.sub_eq_zero_of_le ha, Nat.sub_eq_zero_of_le hb] at h2
  simpa using h2

theorem append_ne_single (a b r : String) (n : Nat)
    (ha : n ≤ a.data.length) (hb : n ≤ b.data.length)
    (hne : a.data.take n ≠ b.data.take n) : a ++ r ≠ b := by
  have hb' : b = b ++ "" := String.ext (by simp [String.data_append])
  rw [hb']
  exact append_ne_of_take_ne a b r "" n ha hb hne

theorem conflict_ne_shnh (r : String) : "conflicting " ++ r ≠ shouldNeverHappenMsg := by
  apply append_ne_single _ _ _ 5 (by decide) (by decide)
  decide

theorem cidrlabel_ne_protolabel (r r' : String) :
    "conflicting sslPolicy, " ++ r ≠ "conflicting protocol, " ++ r' := by
  apply append_ne_of_take_ne _ _ _ _ 13 (by decide) (by decide)
  decide

theorem conflict_append (s r : String) :
    "conflicting " ++ (s ++ r) = ("conflicting " ++ s) ++ r := by
  apply String.ext
  simp [String.data_append]

end MLB

namespace MLB

theorem mergeStep_eq_ok_iff (st : mergeState) (k : NamespacedName)
    (c : listenPortConfig) (st' : mergeState) :
    mergeStep st k c = .ok st' ↔
      ((st.mergedProtocol = none ∨ st.mergedProtocol = some c.protocol) ∧
       (definedCIDRs c = true → stateCIDRsDefined st = false) ∧
       (∀ v, st.mergedSSLPolicy = some v → c.sslPolicy = none ∨ c.sslPolicy = some v) ∧
       st' = stepResult st k c) := by
  obtain ⟨mpr, mpp, v4, v6, cp, msp, mspp, certs⟩ := st
  obtain ⟨proto, c4, c6, cssl, ct⟩ := c
  rcases mpr with _ | p <;> rcases cssl with _ | sp <;> rcases msp with _ | mp <;>
    dsimp only [mergeStep, coreStep, stepProtocol, stepCIDR, stepSSL, stepCerts, stepResult,
      definedCIDRs, stateCIDRsDefined, awsStringValue] <;>
    split_ifs <;>
    simp_all <;>
    try simp [eq_comm]
  all_goals try (by_cases hv2 : (¬v4 = [] ∨ ¬v6 = []) <;> simp_all <;> try simp [eq_comm])
  all_goals try (by_cases hc2 : (¬c4 = [] ∨ ¬c6 = []) <;> simp_all <;> try simp [eq_comm])
  all_goals try (by_cases hmp2 : sp = mp <;> simp_all <;> try simp [eq_comm])
  all_goals try (by_cases hpp2 : p = proto <;> simp_all <;> try simp [eq_comm])
  all_goals tauto
end MLB

namespace MLB

theorem mergeStep_error_conflict (st : mergeState) (k : NamespacedName)
    (c : listenPortConfig) (e : String) (h : mergeStep st k c = .error e) :
    ∃ r, e = "conflicting " ++ r := by
  obtain ⟨mpr, mpp, v4, v6, cp, msp, mspp, certs⟩ := st
  obtain ⟨proto, c4, c6, cssl, ct⟩ := c
  rcases mpr with _ | p <;> rcases cssl with _ | sp <;> rcases msp with _ | mp <;>
    dsimp only [mergeStep, coreStep, stepProtocol, stepCIDR, stepSSL, stepCerts,
      definedCIDRs, stateCIDRsDefined, awsStringValue] at h <;>
    split_ifs at h <;>
    simp_all [protocolConflictMsg, cidrConflictMsg, sslConflictMsg]
  all_goals try (by_cases hx : mp = sp <;> try simp_all)
  all_goals try (by_cases hx2 : (¬v4 = [] ∨ ¬v6 = []) <;> try simp_all)
  all_goals first
    | exact ⟨_, h.symm⟩
    | exact ⟨_, h⟩

theorem mergeStep_cidr_error (st : mergeState) (k : NamespacedName) (c : listenPortConfig)
    (h1 : st.mergedProtocol = none ∨ st.mergedProtocol = some c.protocol)
    (h2 : definedCIDRs c = true) (h3 : stateCIDRsDefined st = true) :
    mergeStep st k c = .error (cidrConflictMsg st.mergedInboundCIDRsProvider
      st.mergedInboundCIDRv4s st.mergedInboundCIDRv6s k
      c.inboundCIDRv4s c.inboundCIDRv6s) := by
  rcases h1 with h1 | h1 <;>
    simp_all [mergeStep, coreStep, stepProtocol, stepCIDR, stateCIDRsDefined, definedCIDRs]

theorem mergeStep_protocol_error (st : mergeState) (k : NamespacedName)
    (c : listenPortConfig) (p : String)
    (hp : st.mergedProtocol = some p) (hne : p ≠ c.protocol) :
    mergeStep st k c = .error (protocolConflictMsg st.mergedProtocolProvider p k c.protocol) := by
  simp [mergeStep, coreStep, stepProtocol, hp, hne]

end MLB

namespace MLB

theorem mergeLoop_error_conflict (l : List (NamespacedName × listenPortConfig))
    (st : mergeState) (e : String) (h : mergeLoop st l = .error e) :
    ∃ r, e = "conflicting " ++ r := by
  induction l generalizing st with
  | nil => simp [mergeLoop] at h
  | cons x rest ih =>
      obtain ⟨k, c⟩ := x
      rw [mergeLoop] at h
      cases hs : mergeStep st k c with
      | error e2 =>
          rw [hs] at h
          cases h
          exact mergeStep_error_conflict st k c e hs
      | ok st1 =>
          rw [hs] at h
          exact ih st1 h

theorem mergeLoop_ok_protocol (l : List (NamespacedName × listenPortConfig))
    (st st' : mergeState) (p : String)
    (hp : st.mergedProtocol = some p) (h : mergeLoop st l = .ok st') :
    (∀ x ∈ l, x.2.protocol = p) ∧ st'.mergedProtocol = some p ∧
      st'.mergedProtocolProvider = st.mergedProtocolProvider := by
  induction l generalizing st with
  | nil =>
      simp [mergeLoop] at h
      subst h
      exact ⟨by simp, hp, rfl⟩
  | cons x rest ih =>
      obtain ⟨k, c⟩ := x
      rw [mergeLoop] at h
      cases hs : mergeStep st k c with
      | error e2 => rw [hs] at h; cases h
      | ok st1 =>
          rw [hs] at h
          obtain ⟨hpr, _, _, hres⟩ := (mergeStep_eq_ok_iff st k c st1).mp hs
          have hcp : c.protocol = p := by
            rcases hpr with hpr | hpr
            · rw [hpr] at hp; cases hp
            · rw [hpr] at hp; exact (Option.some.injEq _ _).mp hp
          have hp1 : st1.mergedProtocol = some p := by
            subst hres; simp [stepResult, hcp]
          have hprov1 : st1.mergedProtocolProvider = st.mergedProtocolProvider := by
            subst hres; simp [stepResult, hp]
          obtain ⟨hall, hfin, hprov⟩ := ih st1 hp1 h
          exact ⟨by
            intro x hx
            rcases List.mem_cons.mp hx with hx | hx
            · subst hx; exact hcp
            · exact hall x hx, hfin, by rw [hprov, hprov1]⟩

theorem mergeLoop_ok_protocol_head (rest : List (NamespacedName × listenPortConfig))
    (st st' : mergeState) (k : NamespacedName) (c : listenPortConfig)
    (hp : st.mergedProtocol = none) (h : mergeLoop st ((k, c) :: rest) = .ok st') :
    st'.mergedProtocol = some c.protocol ∧ st'.mergedProtocolProvider = k ∧
      ∀ x ∈ rest, x.2.protocol = c.protocol := by
  rw [mergeLoop] at h
  cases hs : mergeStep st k c with
  | error e2 => rw [hs] at h; cases h
  | ok st1 =>
      rw [hs] at h
      obtain ⟨_, _, _, hres⟩ := (mergeStep_eq_ok_iff st k c st1).mp hs
      have hp1 : st1.mergedProtocol = some c.protocol := by subst hres; simp [stepResult]
      have hprov1 : st1.mergedProtocolProvider = k := by subst hres; simp [stepResult, hp]
      obtain ⟨hall, hfin, hprov⟩ := mergeLoop_ok_protocol rest st1 st' c.protocol hp1 h
      exact ⟨hfin, by rw [hprov, hprov1], hall⟩

end MLB

namespace MLB

theorem stepResult_cidr_defined (st : mergeState) (k : NamespacedName)
    (c : listenPortConfig) :
    stateCIDRsDefined (stepResult st k c) =
      (definedCIDRs c || stateCIDRsDefined st) := by
  by_cases hd : definedCIDRs c = true <;>
    simp_all [stepResult, stateCIDRsDefined, definedCIDRs] <;> tauto

theorem mergeLoop_ok_cidr_defined (l : List (NamespacedName × listenPortConfig))
    (st st' : mergeState)
    (hd : stateCIDRsDefined st = true) (h : mergeLoop st l = .ok st') :
    (∀ x ∈ l, definedCIDRs x.2 = false) ∧
      st'.mergedInboundCIDRv4s = st.mergedInboundCIDRv4s ∧
      st'.mergedInboundCIDRv6s = st.mergedInboundCIDRv6s := by
  induction l generalizing st with
  | nil =>
      simp [mergeLoop] at h
      subst h
      exact ⟨by simp, rfl, rfl⟩
  | cons x rest ih =>
      obtain ⟨k, c⟩ := x
      rw [mergeLoop] at h
      cases hs : mergeStep st k c with
      | error e2 => rw [hs] at h; cases h
      | ok st1 =>
          rw [hs] at h
          obtain ⟨_, hgate, _, hres⟩ := (mergeStep_eq_ok_iff st k c st1).mp hs
          have hcd : definedCIDRs c = false := by
            by_cases hx : definedCIDRs c = true
            · rw [hgate hx] at hd; cases hd
            · simpa using hx
          have hd1 : stateCIDRsDefined st1 = true := by
            subst hres; rw [stepResult_cidr_defined, hcd, hd]; rfl
          have hv1 : st1.mergedInboundCIDRv4s = st.mergedInboundCIDRv4s ∧
              st1.mergedInboundCIDRv6s = st.mergedInboundCIDRv6s := by
            subst hres; simp [stepResult, hcd]
          obtain ⟨hall, h4, h6⟩ := ih st1 hd1 h
          refine ⟨?_, by rw [h4, hv1.1], by rw [h6, hv1.2]⟩
          intro x hx
          rcases List.mem_cons.mp hx with hx | hx
          · subst hx; exact hcd
          · exact hall x hx

theorem mergeLoop_ok_cidr_undefined (l : List (NamespacedName × listenPortConfig))
    (st st' : mergeState)
    (hd : stateCIDRsDefined st = false) (h : mergeLoop st l = .ok st') :
    cidrCount l ≤ 1 ∧
      (firstCIDRDef l = none →
        st'.mergedInboundCIDRv4s = st.mergedInboundCIDRv4s ∧
        st'.mergedInboundCIDRv6s = st.mergedInboundCIDRv6s) ∧
      (∀ k c, firstCIDRDef l = some (k, c) →
        st'.mergedInboundCIDRv4s = c.inboundCIDRv4s ∧
        st'.mergedInboundCIDRv6s = c.inboundCIDRv6s) := by
  induction l generalizing st with
  | nil =>
      simp [mergeLoop] at h
      subst h
      exact ⟨by simp [cidrCount], by simp, by simp [firstCIDRDef]⟩
  | cons x rest ih =>
      obtain ⟨k, c⟩ := x
      rw [mergeLoop] at h
      cases hs : mergeStep st k c with
      | error e2 => rw [hs] at h; cases h
      | ok st1 =>
          rw [hs] at h
          obtain ⟨_, _, _, hres⟩ := (mergeStep_eq_ok_iff st k c st1).mp hs
          by_cases hcd : definedCIDRs c = true
          · have hd1 : stateCIDRsDefined st1 = true := by
              subst hres; rw [stepResult_cidr_defined, hcd]; rfl
            have hv1 : st1.mergedInboundCIDRv4s = c.inboundCIDRv4s ∧
                st1.mergedInboundCIDRv6s = c.inboundCIDRv6s := by
              subst hres; simp [stepResult, hcd]
            obtain ⟨hall, h4, h6⟩ := mergeLoop_ok_cidr_defined rest st1 st' hd1 h
            have hcount : cidrCount rest = 0 := by
              rw [cidrCount, List.countP_eq_zero]
              intro a ha
              simp [hall a ha]
            refine ⟨?_, ?_, ?_⟩
            · have h0 : rest.countP (fun x => definedCIDRs x.2) = 0 := hcount
              simp [cidrCount, List.countP_cons, hcd, h0]
            · intro hnone
              simp [firstCIDRDef, List.find?_cons, hcd] at hnone
            · intro k2 c2 hsome
              simp [firstCIDRDef, List.find?_cons, hcd] at hsome
              obtain ⟨hk2, hc2⟩ := hsome
              subst hc2
              exact ⟨by rw [h4, hv1.1], by rw [h6, hv1.2]⟩
          · have hcd' : definedCIDRs c = false := by simpa using hcd
            have hd1 : stateCIDRsDefined st1 = false := by
              subst hres; rw [stepResult_cidr_defined, hcd', hd]; rfl
            have hv1 : st1.mergedInboundCIDRv4s = st.mergedInboundCIDRv4s ∧
                st1.mergedInboundCIDRv6s = st.mergedInboundCIDRv6s := by
              subst hres; simp [stepResult, hcd']
            obtain ⟨hcnt, hnone, hsome⟩ := ih st1 hd1 h
            refine ⟨?_, ?_, ?_⟩
            · simpa [cidrCount, List.countP_cons, hcd'] using hcnt
            · intro hfn
              simp [firstCIDRDef, List.find?_cons, hcd'] at hfn
              obtain ⟨g4, g6⟩ := hnone (by simpa [firstCIDRDef] using hfn)
              exact ⟨by rw [g4, hv1.1], by rw [g6, hv1.2]⟩
            · intro k2 c2 hfs
              simp [firstCIDRDef, List.find?_cons, hcd'] at hfs
              exact hsome k2 c2 (by simpa [firstCIDRDef] using hfs)

end MLB

namespace MLB

theorem mergeLoop_ok_ssl_some (l : List (NamespacedName × listenPortConfig))
    (st st' : mergeState) (v : String)
    (hv : st.mergedSSLPolicy = some v) (h : mergeLoop st l = .ok st') :
    (∀ x ∈ l, x.2.sslPolicy = none ∨ x.2.sslPolicy = some v) ∧
      st'.mergedSSLPolicy = some v := by
  induction l generalizing st with
  | nil =>
      simp [mergeLoop] at h
      subst h
      exact ⟨by simp, hv⟩
  | cons x rest ih =>
      obtain ⟨k, c⟩ := x
      rw [mergeLoop] at h
      cases hs : mergeStep st k c with
      | error e2 => rw [hs] at h; cases h
      | ok st1 =>
          rw [hs] at h
          obtain ⟨_, _, hssl, hres⟩ := (mergeStep_eq_ok_iff st k c st1).mp hs
          have hcv : c.sslPolicy = none ∨ c.sslPolicy = some v := hssl v hv
          have hv1 : st1.mergedSSLPolicy = some v := by
            subst hres; simp [stepResult, hv]
          obtain ⟨hall, hfin⟩ := ih st1 hv1 h
          refine ⟨?_, hfin⟩
          intro x hx
          rcases List.mem_cons.mp hx with hx | hx
          · subst hx; exact hcv
          · exact hall x hx

theorem mergeLoop_ok_ssl_none (l : List (NamespacedName × listenPortConfig))
    (st st' : mergeState)
    (hv : st.mergedSSLPolicy = none) (h : mergeLoop st l = .ok st') :
    st'.mergedSSLPolicy = firstSSL l ∧
      (∀ x ∈ l, x.2.sslPolicy = none ∨ x.2.sslPolicy = firstSSL l) := by
  induction l generalizing st with
  | nil =>
      simp [mergeLoop] at h
      subst h
      exact ⟨by rw [hv]; simp [firstSSL], by simp⟩
  | cons x rest ih =>
      obtain ⟨k, c⟩ := x
      rw [mergeLoop] at h
      cases hs : mergeStep st k c with
      | error e2 => rw [hs] at h; cases h
      | ok st1 =>
          rw [hs] at h
          obtain ⟨_, _, _, hres⟩ := (mergeStep_eq_ok_iff st k c st1).mp hs
          cases hcs : c.sslPolicy with
          | none =>
              have hv1 : st1.mergedSSLPolicy = none := by
                subst hres; simp [stepResult, hv, hcs]
              obtain ⟨hfin, hall⟩ := ih st1 hv1 h
              have hfirst : firstSSL ((k, c) :: rest) = firstSSL rest := by
                simp [firstSSL, List.findSome?_cons, hcs]
              refine ⟨by rw [hfin, hfirst], ?_⟩
              intro x hx
              rcases List.mem_cons.mp hx with hx | hx
              · subst hx; left; exact hcs
              · rw [hfirst]; exact hall x hx
          | some sp =>
              have hv1 : st1.mergedSSLPolicy = some sp := by
                subst hres; simp [stepResult, hv, hcs]
              obtain ⟨hall, hfin⟩ := mergeLoop_ok_ssl_some rest st1 st' sp hv1 h
              have hfirst : firstSSL ((k, c) :: rest) = some sp := by
                simp [firstSSL, List.findSome?_cons, hcs]
              refine ⟨by rw [hfin, hfirst], ?_⟩
              intro x hx
              rcases List.mem_cons.mp hx with hx | hx
              · subst hx; right; rw [hfirst]; exact hcs
              · rw [hfirst]; exact hall x hx

theorem mergeLoop_ok_certs (l : List (NamespacedName × listenPortConfig))
    (st st' : mergeState) (h : mergeLoop st l = .ok st') :
    st'.mergedTLSCerts = certsAcc st.mergedTLSCerts l := by
  induction l generalizing st with
  | nil =>
      simp [mergeLoop] at h
      subst h
      simp [certsAcc]
  | cons x rest ih =>
      obtain ⟨k, c⟩ := x
      rw [mergeLoop] at h
      cases hs : mergeStep st k c with
      | error e2 => rw [hs] at h; cases h
      | ok st1 =>
          rw [hs] at h
          obtain ⟨_, _, _, hres⟩ := (mergeStep_eq_ok_iff st k c st1).mp hs
          have hc1 : st1.mergedTLSCerts = strSetInsertMany st.mergedTLSCerts c.tlsCerts := by
            subst hres; simp [stepResult]
          rw [ih st1 h, hc1]
          simp [certsAcc]

theorem mergeLoop_ok_of (l : List (NamespacedName × listenPortConfig))
    (st : mergeState) (p v : String)
    (hp : st.mergedProtocol = none ∨ st.mergedProtocol = some p)
    (hpl : protosOK p l)
    (hb1 : stateCIDRsDefined st = true → cidrCount l = 0)
    (hb2 : cidrCount l ≤ 1)
    (hsv : st.mergedSSLPolicy = none ∨ st.mergedSSLPolicy = some v)
    (hsl : sslAgreeVal v l) :
    ∃ st', mergeLoop st l = .ok st' := by
  induction l generalizing st with
  | nil => exact ⟨st, rfl⟩
  | cons x rest ih =>
      obtain ⟨k, c⟩ := x
      have hcp : c.protocol = p := hpl (k, c) (List.mem_cons_self _ _)
      have hgate : definedCIDRs c = true → stateCIDRsDefined st = false := by
        intro hx
        by_cases hy : stateCIDRsDefined st = true
        · have := hb1 hy
          simp [cidrCount, List.countP_cons, hx] at this
        · simpa using hy
      have hsc : ∀ w, st.mergedSSLPolicy = some w →
          c.sslPolicy = none ∨ c.sslPolicy = some w := by
        intro w hw
        rcases hsv with hsv | hsv
        · rw [hsv] at hw; cases hw
        · rw [hsv] at hw
          cases hw
          exact hsl (k, c) (List.mem_cons_self _ _)
      have hok : mergeStep st k c = .ok (stepResult st k c) :=
        (mergeStep_eq_ok_iff st k c (stepResult st k c)).mpr
          ⟨by rw [hcp]; exact hp, hgate, hsc, rfl⟩
      have hp1 : (stepResult st k c).mergedProtocol = none ∨
          (stepResult st k c).mergedProtocol = some p := by
        right; simp [stepResult, hcp]
      have hrest1 : stateCIDRsDefined (stepResult st k c) = true → cidrCount rest = 0 := by
        intro hx
        rw [stepResult_cidr_defined] at hx
        by_cases hcd : definedCIDRs c = true
        · have hcc : cidrCount ((k, c) :: rest) = cidrCount rest + 1 := by
            simp [cidrCount, List.countP_cons, hcd]
          have h2 := hb2
          rw [hcc] at h2
          omega
        · have hcd2 : definedCIDRs c = false := by simpa using hcd
          rw [hcd2] at hx
          simp only [Bool.false_or] at hx
          have := hb1 hx
          simpa [cidrCount, List.countP_cons, hcd2] using this
      have hrest2 : cidrCount rest ≤ 1 := by
        have h2 := hb2
        by_cases hcd : definedCIDRs c = true
        · have hcc : cidrCount ((k, c) :: rest) = cidrCount rest + 1 := by
            simp [cidrCount, List.countP_cons, hcd]
          rw [hcc] at h2
          omega
        · have hcd2 : definedCIDRs c = false := by simpa using hcd
          have hcc : cidrCount ((k, c) :: rest) = cidrCount rest := by
            simp [cidrCount, List.countP_cons, hcd2]
          rw [hcc] at h2
          exact h2
      have hs1 : (stepResult st k c).mergedSSLPolicy = none ∨
          (stepResult st k c).mergedSSLPolicy = some v := by
        rcases hsv with hsv | hsv
        · rcases hsl (k, c) (List.mem_cons_self _ _) with hx | hx
          · have hx2 : c.sslPolicy = none := hx
            left; simp [stepResult, hsv, hx2]
          · have hx2 : c.sslPolicy = some v := hx
            right; simp [stepResult, hsv, hx2]
        · right; simp [stepResult, hsv]
      obtain ⟨st', hst'⟩ := ih (stepResult st k c) hp1
        (fun x hx => hpl x (List.mem_cons_of_mem _ hx)) hrest1 hrest2 hs1
        (fun x hx => hsl x (List.mem_cons_of_mem _ hx))
      exact ⟨st', by rw [mergeLoop, hok]; exact hst'⟩

end MLB

namespace MLB

theorem initMergeState_protocol : initMergeState.mergedProtocol = none := rfl

theorem initMergeState_cidr : stateCIDRsDefined initMergeState = false := rfl

theorem initMergeState_ssl : initMergeState.mergedSSLPolicy = none := rfl

theorem merge_error_cases (dSSL : String) (l : List (NamespacedName × listenPortConfig))
    (e : String) (h : mergeListenPortConfigs dSSL l = .error e) :
    (l = [] ∧ e = shouldNeverHappenMsg) ∨ ∃ r, e = "conflicting " ++ r := by
  rw [mergeListenPortConfigs] at h
  cases hl : mergeLoop initMergeState l with
  | error e2 =>
      rw [hl] at h
      cases h
      exact Or.inr (mergeLoop_error_conflict l initMergeState e hl)
  | ok st =>
      rw [hl] at h
      dsimp only at h
      cases l with
      | nil =>
          simp [mergeLoop] at hl
          subst hl
          unfold mergeFinalize at h
          simp [initMergeState] at h
          exact Or.inl ⟨rfl, h.symm⟩
      | cons x rest =>
          obtain ⟨k, c⟩ := x
          obtain ⟨hps, _, _⟩ :=
            mergeLoop_ok_protocol_head rest initMergeState st k c rfl hl
          unfold mergeFinalize at h
          rw [hps] at h
          simp at h

end MLB

namespace MLB

theorem str_append_assoc (a b c : String) : a ++ b ++ c = a ++ (b ++ c) := by
  apply String.ext
  simp [String.data_append]

theorem conflictPrefix_split :
    ("conflicting sslPolicy, " : String) = "conflicting " ++ "sslPolicy, " := by decide

/-- C9: for a non-empty merge input, the first iterated member always
sets the merged protocol, so the nil-merged-protocol branch (the
`should never happen` error) of `mergeListenPortConfigs` is
unreachable: every successful loop run ends with a protocol adopted,
and the function never returns the internal-invariant error. -/
theorem C9_nil_protocol_branch_unreachable (dSSL : String)
    (l : List (NamespacedName × listenPortConfig)) (hne : l ≠ []) :
    (∀ st, mergeLoop initMergeState l = .ok st → ∃ p, st.mergedProtocol = some p) ∧
      mergeListenPortConfigs dSSL l ≠ .error shouldNeverHappenMsg := by
  constructor
  · intro st hst
    cases l with
    | nil => exact absurd rfl hne
    | cons x rest =>
        obtain ⟨k, c⟩ := x
        obtain ⟨hp, _, _⟩ := mergeLoop_ok_protocol_head rest initMergeState st k c rfl hst
        exact ⟨c.protocol, hp⟩
  · intro hcontra
    rcases merge_error_cases dSSL l shouldNeverHappenMsg hcontra with ⟨hnil, _⟩ | ⟨r, hr⟩
    · exact hne hnil
    · exact conflict_ne_shnh r hr.symm

/-- Witness for C9 at a concrete one-member input. -/
theorem C9_nil_protocol_branch_unreachable_witness :
    mergeListenPortConfigs "ELBSecurityPolicy-2016-08"
      [(⟨"ns", "a"⟩, ⟨"HTTP", [], [], none, []⟩)] ≠ .error shouldNeverHappenMsg :=
  (C9_nil_protocol_branch_unreachable "ELBSecurityPolicy-2016-08"
    [(⟨"ns", "a"⟩, ⟨"HTTP", [], [], none, []⟩)] (by decide)).2

/-- C5: when no member supplied a protocol (only possible for an empty
input, since every member config carries a protocol), the merge returns
the internal-invariant error `should never happen`; every error
returned for a non-empty input is a user-facing conflict error whose
message starts with `conflicting `, and the internal-invariant message
never has that shape, so a caller can distinguish the two. -/
theorem C5_internal_invariant_error_distinct (dSSL : String) :
    mergeListenPortConfigs dSSL [] = .error shouldNeverHappenMsg ∧
      (∀ l e, mergeListenPortConfigs dSSL l = .error e → l ≠ [] →
        ∃ r, e = "conflicting " ++ r) ∧
      (∀ r, shouldNeverHappenMsg ≠ "conflicting " ++ r) := by
  refine ⟨rfl, ?_, fun r h => conflict_ne_shnh r h.symm⟩
  intro l e h hne
  rcases merge_error_cases dSSL l e h with ⟨hnil, _⟩ | hr
  · exact absurd hnil hne
  · exact hr

/-- Witness for C5 at a concrete default policy and a concrete
two-member protocol conflict. -/
theorem C5_internal_invariant_error_distinct_witness :
    mergeListenPortConfigs "ELBSecurityPolicy-2016-08" [] = .error shouldNeverHappenMsg ∧
      ∃ r, protocolConflictMsg ⟨"nsa", "a"⟩ "HTTP" ⟨"nsb", "b"⟩ "HTTPS" =
        "conflicting " ++ r :=
  ⟨(C5_internal_invariant_error_distinct "ELBSecurityPolicy-2016-08").1,
   (C5_internal_invariant_error_distinct "ELBSecurityPolicy-2016-08").2.1
     [(⟨"nsa", "a"⟩, ⟨"HTTP", [], [], none, []⟩),
      (⟨"nsb", "b"⟩, ⟨"HTTPS", [], [], none, []⟩)]
     (protocolConflictMsg ⟨"nsa", "a"⟩ "HTTP" ⟨"nsb", "b"⟩ "HTTPS") rfl (by decide)⟩

end MLB

namespace MLB

theorem merge_two_cidr_error (dSSL : String) (k1 k2 : NamespacedName)
    (c1 c2 : listenPortConfig) (hp : c2.protocol = c1.protocol)
    (h1 : definedCIDRs c1 = true) (h2 : definedCIDRs c2 = true) :
    mergeListenPortConfigs dSSL [(k1, c1), (k2, c2)] =
      .error (cidrConflictMsg ⟨"", ""⟩ c1.inboundCIDRv4s c1.inboundCIDRv6s
        k2 c2.inboundCIDRv4s c2.inboundCIDRv6s) := by
  have h0 : mergeStep initMergeState k1 c1 = .ok (stepResult initMergeState k1 c1) :=
    (mergeStep_eq_ok_iff initMergeState k1 c1 (stepResult initMergeState k1 c1)).mpr
      ⟨Or.inl rfl, fun _ => rfl, fun v hv => Option.noConfusion hv, rfl⟩
  have hst1cidr : stateCIDRsDefined (stepResult initMergeState k1 c1) = true := by
    rw [stepResult_cidr_defined, h1]
    rfl
  have hst1p : (stepResult initMergeState k1 c1).mergedProtocol = some c1.protocol := by
    simp [stepResult]
  have herr : mergeStep (stepResult initMergeState k1 c1) k2 c2 =
      .error (cidrConflictMsg
        (stepResult initMergeState k1 c1).mergedInboundCIDRsProvider
        (stepResult initMergeState k1 c1).mergedInboundCIDRv4s
        (stepResult initMergeState k1 c1).mergedInboundCIDRv6s
        k2 c2.inboundCIDRv4s c2.inboundCIDRv6s) :=
    mergeStep_cidr_error (stepResult initMergeState k1 c1) k2 c2
      (Or.inr (by rw [hst1p, hp])) h2 hst1cidr
  have hprov : (stepResult initMergeState k1 c1).mergedInboundCIDRsProvider =
      (⟨"", ""⟩ : NamespacedName) := by simp [stepResult, initMergeState]
  have h4 : (stepResult initMergeState k1 c1).mergedInboundCIDRv4s = c1.inboundCIDRv4s := by
    simp [stepResult, h1]
  have h6 : (stepResult initMergeState k1 c1).mergedInboundCIDRv6s = c1.inboundCIDRv6s := by
    simp [stepResult, h1]
  rw [hprov, h4, h6] at herr
  have hloop : mergeLoop initMergeState [(k1, c1), (k2, c2)] =
      .error (cidrConflictMsg ⟨"", ""⟩ c1.inboundCIDRv4s c1.inboundCIDRv6s
        k2 c2.inboundCIDRv4s c2.inboundCIDRv6s) := by
    rw [mergeLoop, h0]
    dsimp only
    rw [mergeLoop, herr]
  rw [mergeListenPortConfigs, hloop]

/-- C10: the conflict error rejecting a second non-empty inbound-CIDR
definition is labelled `conflicting sslPolicy` (and its first named
provider is the never-assigned zero-value identity), even though the
values it lists are the two members inbound CIDR sets: any consumer
attributing the conflicting field from the message text will
misattribute a CIDR conflict to sslPolicy. -/
theorem C10_cidr_conflict_labelled_sslPolicy (dSSL : String) (k1 k2 : NamespacedName)
    (c1 c2 : listenPortConfig) (hp : c2.protocol = c1.protocol)
    (h1 : definedCIDRs c1 = true) (h2 : definedCIDRs c2 = true) :
    mergeListenPortConfigs dSSL [(k1, c1), (k2, c2)] =
      .error (cidrConflictMsg ⟨"", ""⟩ c1.inboundCIDRv4s c1.inboundCIDRv6s
        k2 c2.inboundCIDRv4s c2.inboundCIDRv6s) ∧
      cidrConflictMsg ⟨"", ""⟩ c1.inboundCIDRv4s c1.inboundCIDRv6s
          k2 c2.inboundCIDRv4s c2.inboundCIDRv6s =
        "conflicting sslPolicy, " ++ (nnShow ⟨"", ""⟩ ++ ": " ++ fmtList c1.inboundCIDRv4s
          ++ ", " ++ fmtList c1.inboundCIDRv6s ++ " | " ++ nnShow k2 ++ ": "
          ++ fmtList c2.inboundCIDRv4s ++ ", " ++ fmtList c2.inboundCIDRv6s) := by
  refine ⟨merge_two_cidr_error dSSL k1 k2 c1 c2 hp h1 h2, ?_⟩
  rw [cidrConflictMsg, conflictPrefix_split]
  apply String.ext
  simp [String.data_append]

/-- Witness for C10: two members with value-identical single-CIDR
restrictions; the merge fails with the sslPolicy-labelled message. -/
theorem C10_cidr_conflict_labelled_sslPolicy_witness :
    mergeListenPortConfigs "ELBSecurityPolicy-2016-08"
      [(⟨"nsa", "a"⟩, ⟨"HTTP", ["10.0.0.0/8"], [], none, []⟩),
       (⟨"nsb", "b"⟩, ⟨"HTTP", ["10.0.0.0/8"], [], none, []⟩)] =
      .error "conflicting sslPolicy, /: [10.0.0.0/8], [] | nsb/b: [10.0.0.0/8], []" := by
  have h := (C10_cidr_conflict_labelled_sslPolicy "ELBSecurityPolicy-2016-08"
    ⟨"nsa", "a"⟩ ⟨"nsb", "b"⟩ ⟨"HTTP", ["10.0.0.0/8"], [], none, []⟩
    ⟨"HTTP", ["10.0.0.0/8"], [], none, []⟩ rfl (by decide) (by decide)).1
  rw [h]
  rfl

end MLB

namespace MLB

theorem merge_eq_of_loop_ok (dSSL : String) (l : List (NamespacedName × listenPortConfig))
    (st : mergeState) (h : mergeLoop initMergeState l = .ok st) :
    mergeListenPortConfigs dSSL l = mergeFinalize dSSL st := by
  rw [mergeListenPortConfigs, h]

theorem merge_eq_of_loop_error (dSSL : String) (l : List (NamespacedName × listenPortConfig))
    (e : String) (h : mergeLoop initMergeState l = .error e) :
    mergeListenPortConfigs dSSL l = .error e := by
  rw [mergeListenPortConfigs, h]

theorem merge_ok_inv (dSSL : String) (l : List (NamespacedName × listenPortConfig))
    (cfg : listenPortConfig) (h : mergeListenPortConfigs dSSL l = .ok cfg) :
    ∃ st, mergeLoop initMergeState l = .ok st ∧ mergeFinalize dSSL st = .ok cfg := by
  rw [mergeListenPortConfigs] at h
  cases hl : mergeLoop initMergeState l with
  | error e => rw [hl] at h; cases h
  | ok st =>
      rw [hl] at h
      exact ⟨st, rfl, h⟩

theorem mergeFinalize_some (dSSL : String) (st : mergeState) (p : String)
    (hp : st.mergedProtocol = some p) :
    mergeFinalize dSSL st = .ok
      { protocol := p
        inboundCIDRv4s := if !stateCIDRsDefined st then
          st.mergedInboundCIDRv4s ++ ["0.0.0.0/0"] else st.mergedInboundCIDRv4s
        inboundCIDRv6s := if !stateCIDRsDefined st then
          st.mergedInboundCIDRv6s ++ ["::/0"] else st.mergedInboundCIDRv6s
        sslPolicy := if p == ProtocolHTTPS && st.mergedSSLPolicy.isNone then
          some dSSL else st.mergedSSLPolicy
        tlsCerts := strSetList st.mergedTLSCerts } := by
  unfold mergeFinalize
  rw [hp]

theorem except_not_ok {ε α : Type} (x : Except ε α) (h : ∀ a, x ≠ .ok a) :
    ∃ e, x = .error e :=
  match x, h with
  | .error e2, _ => ⟨e2, rfl⟩
  | .ok a2, h2 => absurd rfl (h2 a2)

/-- C1: the inbound-CIDR gate is boolean, with no value comparison:
whenever two or more members define a non-empty CIDR set (even
value-identical ones), the merge fails with a conflict error for every
iteration order; and when exactly one member defines a non-empty CIDR
set (all members agreeing on protocol and on any specified SSL policy),
the merge succeeds and adopts exactly that member's CIDR sets. -/
theorem C1_cidr_boolean_gate (dSSL : String) :
    (∀ (l : List (NamespacedName × listenPortConfig)), 2 ≤ cidrCount l →
      ∃ e r, mergeListenPortConfigs dSSL l = .error e ∧ e = "conflicting " ++ r) ∧
    (∀ (l1 l2 : List (NamespacedName × listenPortConfig)) (k : NamespacedName)
        (c : listenPortConfig) (p : String) (v : String),
      protosOK p (l1 ++ (k, c) :: l2) → sslAgreeVal v (l1 ++ (k, c) :: l2) →
      definedCIDRs c = true →
      (∀ x ∈ l1 ++ l2, definedCIDRs x.2 = false) →
      ∃ cfg, mergeListenPortConfigs dSSL (l1 ++ (k, c) :: l2) = .ok cfg ∧
        cfg.inboundCIDRv4s = c.inboundCIDRv4s ∧
        cfg.inboundCIDRv6s = c.inboundCIDRv6s) := by
  constructor
  · intro l hcount
    have hnotok : ∀ cfg, mergeListenPortConfigs dSSL l ≠ .ok cfg := by
      intro cfg hok
      obtain ⟨st, hloop, _⟩ := merge_ok_inv dSSL l cfg hok
      obtain ⟨hle, _, _⟩ :=
        mergeLoop_ok_cidr_undefined l initMergeState st rfl hloop
      omega
    obtain ⟨e, he⟩ := except_not_ok _ hnotok
    have hne : l ≠ [] := by
      intro hnil
      subst hnil
      simp [cidrCount] at hcount
    rcases merge_error_cases dSSL l e he with ⟨hnil, _⟩ | ⟨r, hr⟩
    · exact absurd hnil hne
    · exact ⟨e, r, he, hr⟩
  · intro l1 l2 k c p v hpl hsl hdef hrest
    have hcount : cidrCount (l1 ++ (k, c) :: l2) ≤ 1 := by
      rw [cidrCount, List.countP_append, List.countP_cons]
      have hz1 : l1.countP (fun x => definedCIDRs x.2) = 0 := by
        rw [List.countP_eq_zero]
        intro a ha
        simp [hrest a (List.mem_append_left _ ha)]
      have hz2 : l2.countP (fun x => definedCIDRs x.2) = 0 := by
        rw [List.countP_eq_zero]
        intro a ha
        simp [hrest a (List.mem_append_right _ ha)]
      simp [hz1, hz2, hdef]
    obtain ⟨st, hloop⟩ := mergeLoop_ok_of (l1 ++ (k, c) :: l2) initMergeState p v
      (Or.inl rfl) hpl (fun hx => absurd hx (by decide)) hcount (Or.inl rfl) hsl
    have hfirst : firstCIDRDef (l1 ++ (k, c) :: l2) = some (k, c) := by
      rw [firstCIDRDef, List.find?_append]
      have h1 : l1.find? (fun x => definedCIDRs x.2) = none := by
        rw [List.find?_eq_none]
        intro a ha
        simp [hrest a (List.mem_append_left _ ha)]
      rw [h1]
      simp [List.find?_cons, hdef]
    obtain ⟨_, _, hadopt⟩ :=
      mergeLoop_ok_cidr_undefined (l1 ++ (k, c) :: l2) initMergeState st rfl hloop
    obtain ⟨h4, h6⟩ := hadopt k c hfirst
    have hpkc : c.protocol = p := hpl (k, c) (by simp)
    have hstp : st.mergedProtocol = some p := by
      cases hl1 : l1 with
      | nil =>
          simp [hl1] at hloop
          obtain ⟨hp2, _, _⟩ := mergeLoop_ok_protocol_head l2 initMergeState st k c rfl hloop
          rw [hp2, hpkc]
      | cons y ys =>
          obtain ⟨ky, cy⟩ := y
          rw [hl1] at hloop
          simp only [List.cons_append] at hloop
          obtain ⟨hp2, _, _⟩ := mergeLoop_ok_protocol_head (ys ++ (k, c) :: l2)
            initMergeState st ky cy rfl hloop
          have : cy.protocol = p := hpl (ky, cy) (by simp [hl1])
          rw [hp2, this]
    have hstcidr : stateCIDRsDefined st = true := by
      rw [stateCIDRsDefined, h4, h6]
      rw [definedCIDRs] at hdef
      exact hdef
    rw [merge_eq_of_loop_ok dSSL _ st hloop, mergeFinalize_some dSSL st p hstp]
    refine ⟨_, rfl, ?_, ?_⟩ <;> simp [hstcidr, h4, h6]

/-- Witness for C1: two members declaring the identical non-empty CIDR
set conflict; a single member declaring it succeeds and is adopted. -/
theorem C1_cidr_boolean_gate_witness :
    (∃ e r, mergeListenPortConfigs "ELBSecurityPolicy-2016-08"
      [(⟨"nsa", "a"⟩, ⟨"HTTP", ["10.0.0.0/8"], [], none, []⟩),
       (⟨"nsb", "b"⟩, ⟨"HTTP", ["10.0.0.0/8"], [], none, []⟩)] = .error e ∧
      e = "conflicting " ++ r) ∧
    (∃ cfg, mergeListenPortConfigs "ELBSecurityPolicy-2016-08"
      [(⟨"nsa", "a"⟩, ⟨"HTTP", ["10.0.0.0/8"], [], none, []⟩),
       (⟨"nsb", "b"⟩, ⟨"HTTP", [], [], none, []⟩)] = .ok cfg ∧
      cfg.inboundCIDRv4s = ["10.0.0.0/8"] ∧ cfg.inboundCIDRv6s = []) :=
  ⟨(C1_cidr_boolean_gate "ELBSecurityPolicy-2016-08").1
    [(⟨"nsa", "a"⟩, ⟨"HTTP", ["10.0.0.0/8"], [], none, []⟩),
     (⟨"nsb", "b"⟩, ⟨"HTTP", ["10.0.0.0/8"], [], none, []⟩)] (by decide),
   (C1_cidr_boolean_gate "ELBSecurityPolicy-2016-08").2
    [] [(⟨"nsb", "b"⟩, ⟨"HTTP", [], [], none, []⟩)] ⟨"nsa", "a"⟩
    ⟨"HTTP", ["10.0.0.0/8"], [], none, []⟩ "HTTP" "x"
    (by intro x hx; simp at hx; rcases hx with hx | hx <;> simp [hx])
    (by intro x hx; simp at hx; rcases hx with hx | hx <;> simp [hx])
    (by decide) (by intro x hx; simp at hx; subst hx; decide)⟩

end MLB

namespace MLB

theorem mergeFinalize_ok_inv (dSSL : String) (st : mergeState) (cfg : listenPortConfig)
    (h : mergeFinalize dSSL st = .ok cfg) :
    ∃ p, st.mergedProtocol = some p ∧ cfg =
      { protocol := p
        inboundCIDRv4s := if !stateCIDRsDefined st then
          st.mergedInboundCIDRv4s ++ ["0.0.0.0/0"] else st.mergedInboundCIDRv4s
        inboundCIDRv6s := if !stateCIDRsDefined st then
          st.mergedInboundCIDRv6s ++ ["::/0"] else st.mergedInboundCIDRv6s
        sslPolicy := if p == ProtocolHTTPS && st.mergedSSLPolicy.isNone then
          some dSSL else st.mergedSSLPolicy
        tlsCerts := strSetList st.mergedTLSCerts } := by
  cases hp : st.mergedProtocol with
  | none =>
      unfold mergeFinalize at h
      rw [hp] at h
      cases h
  | some p =>
      rw [mergeFinalize_some dSSL st p hp] at h
      exact ⟨p, rfl, ((Except.ok.injEq _ _).mp h).symm⟩

/-- C7: post-merge defaults. If no member defined any inbound CIDR, a
successful merge produces exactly the allow-all CIDRs; if the merged
protocol is HTTPS and no member specified an SSL policy, the merged
policy is the process-wide default, whose value in the default build
task is ELBSecurityPolicy-2016-08. -/
theorem C7_post_merge_defaults (dSSL : String)
    (l : List (NamespacedName × listenPortConfig)) (cfg : listenPortConfig) :
    (mergeListenPortConfigs dSSL l = .ok cfg →
      ((∀ x ∈ l, definedCIDRs x.2 = false) →
        cfg.inboundCIDRv4s = ["0.0.0.0/0"] ∧ cfg.inboundCIDRv6s = ["::/0"]) ∧
      (cfg.protocol = ProtocolHTTPS → (∀ x ∈ l, x.2.sslPolicy = none) →
        cfg.sslPolicy = some dSSL)) ∧
    defaultSSLPolicy = "ELBSecurityPolicy-2016-08" := by
  refine ⟨?_, rfl⟩
  intro h
  obtain ⟨st, hloop, hfin⟩ := merge_ok_inv dSSL l cfg h
  obtain ⟨p, hp, hcfg⟩ := mergeFinalize_ok_inv dSSL st cfg hfin
  constructor
  · intro hnone
    have hfirst : firstCIDRDef l = none := by
      rw [firstCIDRDef, List.find?_eq_none]
      intro a ha
      simp [hnone a ha]
    obtain ⟨_, hkeep, _⟩ :=
      mergeLoop_ok_cidr_undefined l initMergeState st rfl hloop
    obtain ⟨h4, h6⟩ := hkeep hfirst
    have hsd : stateCIDRsDefined st = false := by
      rw [stateCIDRsDefined, h4, h6]
      rfl
    rw [hcfg]
    simp [hsd, h4, h6, initMergeState]
  · intro hhttps hssl
    have hsn : st.mergedSSLPolicy = none := by
      obtain ⟨hfs, _⟩ := mergeLoop_ok_ssl_none l initMergeState st rfl hloop
      rw [hfs, firstSSL, List.findSome?_eq_none]
      intro a ha
      exact hssl a ha
    have hpv : p = ProtocolHTTPS := by
      rw [hcfg] at hhttps
      exact hhttps
    rw [hcfg]
    simp [hpv, hsn, ProtocolHTTPS]

/-- Witness for C7: one HTTPS member with no CIDRs and no SSL policy
merges to the allow-all CIDRs and the default SSL policy. -/
theorem C7_post_merge_defaults_witness :
    ∃ cfg, mergeListenPortConfigs "ELBSecurityPolicy-2016-08"
        [(⟨"ns", "a"⟩, ⟨"HTTPS", [], [], none, []⟩)] = .ok cfg ∧
      cfg.inboundCIDRv4s = ["0.0.0.0/0"] ∧ cfg.inboundCIDRv6s = ["::/0"] ∧
      cfg.sslPolicy = some "ELBSecurityPolicy-2016-08" := by
  refine ⟨⟨"HTTPS", ["0.0.0.0/0"], ["::/0"], some "ELBSecurityPolicy-2016-08", []⟩, ?_, rfl, rfl, rfl⟩
  have hok : mergeListenPortConfigs "ELBSecurityPolicy-2016-08"
      [(⟨"ns", "a"⟩, ⟨"HTTPS", [], [], none, []⟩)] =
      .ok ⟨"HTTPS", ["0.0.0.0/0"], ["::/0"], some "ELBSecurityPolicy-2016-08", []⟩ := by rfl
  have hcheck := (C7_post_merge_defaults "ELBSecurityPolicy-2016-08"
      [(⟨"ns", "a"⟩, ⟨"HTTPS", [], [], none, []⟩)]
      ⟨"HTTPS", ["0.0.0.0/0"], ["::/0"], some "ELBSecurityPolicy-2016-08", []⟩).1 hok
  have h1 := hcheck.1 (by intro x hx; simp at hx; subst hx; decide)
  have h2 := hcheck.2 rfl (by intro x hx; simp at hx; subst hx; rfl)
  exact hok

end MLB

namespace MLB

theorem mergeLoop_append (a b : List (NamespacedName × listenPortConfig)) (st : mergeState) :
    mergeLoop st (a ++ b) =
      match mergeLoop st a with
      | .error e => .error e
      | .ok st1 => mergeLoop st1 b := by
  induction a generalizing st with
  | nil => simp [mergeLoop]
  | cons x rest ih =>
      obtain ⟨k, c⟩ := x
      rw [List.cons_append, mergeLoop, mergeLoop]
      cases hs : mergeStep st k c with
      | error e => rfl
      | ok st1 => exact ih st1

theorem sslLabel_eq (r : String) :
    "conflicting " ++ ("sslPolicy, " ++ r) = "conflicting sslPolicy, " ++ r := by
  rw [conflictPrefix_split]
  exact (str_append_assoc _ _ _).symm

theorem protoPrefix_split :
    ("conflicting protocol, " : String) = "conflicting " ++ "protocol, " := by decide

theorem protocolConflictMsg_shape (k1 : NamespacedName) (p1 : String)
    (k2 : NamespacedName) (p2 : String) :
    ∃ r, protocolConflictMsg k1 p1 k2 p2 = "conflicting protocol, " ++ r := by
  refine ⟨nnShow k1 ++ (": " ++ (p1 ++ (" | " ++ (nnShow k2 ++ (": " ++ p2))))), ?_⟩
  rw [protocolConflictMsg, protoPrefix_split]
  apply String.ext
  simp [String.data_append]

set_option maxHeartbeats 1000000 in
theorem mergeStep_error_ssl_label (st : mergeState) (k : NamespacedName)
    (c : listenPortConfig) (e : String)
    (hpr : st.mergedProtocol = none ∨ st.mergedProtocol = some c.protocol)
    (h : mergeStep st k c = .error e) :
    ∃ r, e = "conflicting " ++ ("sslPolicy, " ++ r) := by
  obtain ⟨mpr, mpp, v4, v6, cp, msp, mspp, certs⟩ := st
  obtain ⟨proto, c4, c6, cssl, ct⟩ := c
  simp only at hpr
  rcases mpr with _ | p <;> rcases cssl with _ | sp <;> rcases msp with _ | mp <;>
    dsimp only [mergeStep, coreStep, stepProtocol, stepCIDR, stepSSL, stepCerts,
      definedCIDRs, stateCIDRsDefined, awsStringValue] at h <;>
    split_ifs at h <;>
    simp_all [protocolConflictMsg, cidrConflictMsg, sslConflictMsg]
  all_goals try (by_cases hx : mp = sp <;> try simp_all)
  all_goals try (by_cases hx2 : (¬v4 = [] ∨ ¬v6 = []) <;> try simp_all)
  all_goals first
    | exact ⟨_, h.symm⟩
    | exact ⟨_, h⟩

theorem mergeLoop_error_ssl_label (l : List (NamespacedName × listenPortConfig))
    (st : mergeState) (p : String) (e : String)
    (hpl : protosOK p l)
    (hpr : st.mergedProtocol = none ∨ st.mergedProtocol = some p)
    (h : mergeLoop st l = .error e) :
    ∃ r, e = "conflicting sslPolicy, " ++ r := by
  induction l generalizing st with
  | nil => simp [mergeLoop] at h
  | cons x rest ih =>
      obtain ⟨k, c⟩ := x
      have hcp : c.protocol = p := hpl (k, c) (List.mem_cons_self _ _)
      rw [mergeLoop] at h
      cases hs : mergeStep st k c with
      | error e2 =>
          rw [hs] at h
          cases h
          obtain ⟨r, hr⟩ := mergeStep_error_ssl_label st k c e
            (by rw [hcp]; exact hpr) hs
          exact ⟨r, by rw [hr, sslLabel_eq]⟩
      | ok st1 =>
          rw [hs] at h
          obtain ⟨_, _, _, hres⟩ := (mergeStep_eq_ok_iff st k c st1).mp hs
          have hp1 : st1.mergedProtocol = some p := by
            subst hres; simp [stepResult, hcp]
          exact ih st1 (fun x hx => hpl x (List.mem_cons_of_mem _ hx)) (Or.inr hp1) h

end MLB

namespace MLB

theorem mergeFinalize_error_inv (dSSL : String) (st : mergeState) (e : String)
    (h : mergeFinalize dSSL st = .error e) : e = shouldNeverHappenMsg := by
  cases hp : st.mergedProtocol with
  | none =>
      unfold mergeFinalize at h
      rw [hp] at h
      cases h
      rfl
  | some p =>
      rw [mergeFinalize_some dSSL st p hp] at h
      cases h

/-- C2 counterexample: in a three-member input where the third member's
protocol (HTTPS) differs from the first-seen candidate (HTTP), the
merge does not return an error naming the two members and the two
protocol values: an earlier CIDR conflict fires first, and the returned
message is no protocol-conflict message and does not even contain the
string HTTPS. -/
theorem C2_counterexample :
    mergeListenPortConfigs "ELBSecurityPolicy-2016-08"
      [(⟨"nsa", "a"⟩, ⟨"HTTP", ["10.0.0.0/8"], [], none, []⟩),
       (⟨"nsb", "b"⟩, ⟨"HTTP", ["10.0.0.0/8"], [], none, []⟩),
       (⟨"nsc", "c"⟩, ⟨"HTTPS", [], [], none, []⟩)] =
      .error "conflicting sslPolicy, /: [10.0.0.0/8], [] | nsb/b: [10.0.0.0/8], []" ∧
    ("HTTPS" : String) ≠ "HTTP" ∧
    (∀ k1 p1 k2 p2, "conflicting sslPolicy, /: [10.0.0.0/8], [] | nsb/b: [10.0.0.0/8], []" ≠
      protocolConflictMsg k1 p1 k2 p2) ∧
    strContainsSub "conflicting sslPolicy, /: [10.0.0.0/8], [] | nsb/b: [10.0.0.0/8], []"
      "HTTPS" = false := by
  refine ⟨by rfl, by decide, ?_, by decide⟩
  intro k1 p1 k2 p2 hcontra
  obtain ⟨r, hr⟩ := protocolConflictMsg_shape k1 p1 k2 p2
  rw [hr] at hcontra
  have hsplit : ("conflicting sslPolicy, /: [10.0.0.0/8], [] | nsb/b: [10.0.0.0/8], []" : String) =
      "conflicting sslPolicy, " ++ "/: [10.0.0.0/8], [] | nsb/b: [10.0.0.0/8], []" := by decide
  rw [hsplit] at hcontra
  exact cidrlabel_ne_protolabel _ r hcontra

/-- C2 amended: the first-seen member's protocol becomes the candidate;
when a later member's differing protocol is the first conflict reached
in iteration order, the merge fails with a conflict error naming the
candidate's provider, the disagreeing member and both protocol values
(an earlier CIDR or SSL-policy conflict takes precedence otherwise);
and when all members agree on the protocol, no protocol-conflict error
is ever returned. -/
theorem C2_protocol_conflict_amended (dSSL : String) :
    (∀ (k0 : NamespacedName) (c0 : listenPortConfig)
       (l1 l2 : List (NamespacedName × listenPortConfig))
       (k : NamespacedName) (c : listenPortConfig) (st : mergeState),
      mergeLoop initMergeState ((k0, c0) :: l1) = .ok st →
      c.protocol ≠ c0.protocol →
      mergeListenPortConfigs dSSL (((k0, c0) :: l1) ++ (k, c) :: l2) =
        .error (protocolConflictMsg k0 c0.protocol k c.protocol)) ∧
    (∀ (p : String) (l : List (NamespacedName × listenPortConfig)), protosOK p l →
      ∀ k1 p1 k2 p2,
        mergeListenPortConfigs dSSL l ≠ .error (protocolConflictMsg k1 p1 k2 p2)) := by
  constructor
  · intro k0 c0 l1 l2 k c st hpre hne
    obtain ⟨hp, hprov, _⟩ := mergeLoop_ok_protocol_head l1 initMergeState st k0 c0 rfl hpre
    have herr : mergeStep st k c =
        .error (protocolConflictMsg st.mergedProtocolProvider c0.protocol k c.protocol) :=
      mergeStep_protocol_error st k c c0.protocol hp (fun hx => hne hx.symm)
    rw [hprov] at herr
    have hloop : mergeLoop initMergeState (((k0, c0) :: l1) ++ (k, c) :: l2) =
        .error (protocolConflictMsg k0 c0.protocol k c.protocol) := by
      rw [mergeLoop_append, hpre]
      dsimp only
      rw [mergeLoop, herr]
    exact merge_eq_of_loop_error dSSL _ _ hloop
  · intro p l hpl k1 p1 k2 p2 hcontra
    obtain ⟨rp, hrp⟩ := protocolConflictMsg_shape k1 p1 k2 p2
    rw [mergeListenPortConfigs] at hcontra
    cases hl : mergeLoop initMergeState l with
    | error e =>
        rw [hl] at hcontra
        cases hcontra
        obtain ⟨r, hr⟩ := mergeLoop_error_ssl_label l initMergeState p _ hpl (Or.inl rfl) hl
        rw [hrp] at hr
        exact cidrlabel_ne_protolabel r rp (by rw [← hr])
    | ok st =>
        rw [hl] at hcontra
        dsimp only at hcontra
        have hshnh := mergeFinalize_error_inv dSSL st _ hcontra
        rw [hrp] at hshnh
        exact append_ne_single "conflicting protocol, " shouldNeverHappenMsg rp 5
          (by decide) (by decide) (by decide) hshnh

/-- Witness for C2 amended: a two-member protocol disagreement is the
first conflict reached, and the error names both members and both
values; a one-member input with agreed protocol never yields a
protocol-conflict error. -/
theorem C2_protocol_conflict_amended_witness :
    mergeListenPortConfigs "ELBSecurityPolicy-2016-08"
      [(⟨"nsa", "a"⟩, ⟨"HTTP", [], [], none, []⟩),
       (⟨"nsb", "b"⟩, ⟨"HTTPS", [], [], none, []⟩)] =
      .error (protocolConflictMsg ⟨"nsa", "a"⟩ "HTTP" ⟨"nsb", "b"⟩ "HTTPS") ∧
    mergeListenPortConfigs "ELBSecurityPolicy-2016-08"
      [(⟨"nsa", "a"⟩, ⟨"HTTP", [], [], none, []⟩)] ≠
      .error (protocolConflictMsg ⟨"nsa", "a"⟩ "HTTP" ⟨"nsb", "b"⟩ "HTTPS") :=
  ⟨(C2_protocol_conflict_amended "ELBSecurityPolicy-2016-08").1
    ⟨"nsa", "a"⟩ ⟨"HTTP", [], [], none, []⟩ [] []
    ⟨"nsb", "b"⟩ ⟨"HTTPS", [], [], none, []⟩
    ⟨some "HTTP", ⟨"nsa", "a"⟩, [], [], ⟨"", ""⟩, none, ⟨"", ""⟩, []⟩
    (by rfl) (by decide),
   (C2_protocol_conflict_amended "ELBSecurityPolicy-2016-08").2
    "HTTP" [(⟨"nsa", "a"⟩, ⟨"HTTP", [], [], none, []⟩)]
    (by intro x hx; simp at hx; subst hx; rfl)
    ⟨"nsa", "a"⟩ "HTTP" ⟨"nsb", "b"⟩ "HTTPS"⟩

end MLB

namespace MLB

theorem strSetInsert_mem (s : List String) (y x : String) :
    x ∈ strSetInsert s y ↔ x ∈ s ∨ x = y := by
  rw [strSetInsert]
  split_ifs with h
  · constructor
    · exact Or.inl
    · rintro (hx | hx)
      · exact hx
      · rwa [hx]
  · simp

theorem strSetInsert_nodup (s : List String) (y : String) (h : s.Nodup) :
    (strSetInsert s y).Nodup := by
  rw [strSetInsert]
  split_ifs with hy
  · exact h
  · simp [List.nodup_append, h, hy]

theorem strSetInsertMany_cons (s : List String) (y : String) (rest : List String) :
    strSetInsertMany s (y :: rest) = strSetInsertMany (strSetInsert s y) rest := rfl

theorem strSetInsertMany_mem (ys s : List String) (x : String) :
    x ∈ strSetInsertMany s ys ↔ x ∈ s ∨ x ∈ ys := by
  induction ys generalizing s with
  | nil => simp [strSetInsertMany]
  | cons y rest ih =>
      rw [strSetInsertMany_cons, ih, strSetInsert_mem, List.mem_cons]
      tauto

theorem strSetInsertMany_nodup (ys s : List String) (h : s.Nodup) :
    (strSetInsertMany s ys).Nodup := by
  induction ys generalizing s with
  | nil => exact h
  | cons y rest ih =>
      rw [strSetInsertMany_cons]
      exact ih _ (strSetInsert_nodup s y h)

theorem certsAcc_mem (l : List (NamespacedName × listenPortConfig))
    (s : List String) (x : String) :
    x ∈ certsAcc s l ↔ x ∈ s ∨ ∃ m ∈ l, x ∈ m.2.tlsCerts := by
  induction l generalizing s with
  | nil => simp [certsAcc]
  | cons m rest ih =>
      have hc : certsAcc s (m :: rest) = certsAcc (strSetInsertMany s m.2.tlsCerts) rest := rfl
      rw [hc, ih, strSetInsertMany_mem]
      constructor
      · rintro ((h | h) | h)
        · exact Or.inl h
        · exact Or.inr ⟨m, List.mem_cons_self _ _, h⟩
        · obtain ⟨m2, hm2, hx⟩ := h
          exact Or.inr ⟨m2, List.mem_cons_of_mem _ hm2, hx⟩
      · rintro (h | ⟨m2, hm2, hx⟩)
        · exact Or.inl (Or.inl h)
        · rcases List.mem_cons.mp hm2 with hm2 | hm2
          · subst hm2; exact Or.inl (Or.inr hx)
          · exact Or.inr ⟨m2, hm2, hx⟩

theorem certsAcc_nodup (l : List (NamespacedName × listenPortConfig))
    (s : List String) (h : s.Nodup) : (certsAcc s l).Nodup := by
  induction l generalizing s with
  | nil => exact h
  | cons m rest ih =>
      have hc : certsAcc s (m :: rest) = certsAcc (strSetInsertMany s m.2.tlsCerts) rest := rfl
      rw [hc]
      exact ih _ (strSetInsertMany_nodup _ _ h)

theorem strSetList_perm (s : List String) : (strSetList s).Perm s :=
  List.perm_insertionSort (fun a b => strLeB a b = true) s

theorem strSetList_sorted (s : List String) :
    List.Sorted (fun a b => strLeB a b = true) (strSetList s) :=
  List.sorted_insertionSort (fun a b => strLeB a b = true) s

theorem strSetList_mem (s : List String) (x : String) :
    x ∈ strSetList s ↔ x ∈ s :=
  (strSetList_perm s).mem_iff

theorem strSetList_nodup (s : List String) (h : s.Nodup) :
    (strSetList s).Nodup :=
  ((strSetList_perm s).nodup_iff).mpr h

theorem strSetList_eq_of_mem_iff (s1 s2 : List String)
    (h1 : s1.Nodup) (h2 : s2.Nodup) (hm : ∀ x, x ∈ s1 ↔ x ∈ s2) :
    strSetList s1 = strSetList s2 := by
  apply List.eq_of_perm_of_sorted _ (strSetList_sorted s1) (strSetList_sorted s2)
  have hp : s1.Perm s2 := (List.perm_ext_iff_of_nodup h1 h2).mpr hm
  exact (strSetList_perm s1).trans (hp.trans (strSetList_perm s2).symm)

end MLB

namespace MLB

theorem mergeStep_erase (st : mergeState) (k : NamespacedName) (c : listenPortConfig) :
    mergeStep (eraseC st) k (eraseCfg c) = Except.map eraseC (mergeStep st k c) := by
  obtain ⟨mpr, mpp, v4, v6, cp, msp, mspp, certs⟩ := st
  obtain ⟨proto, c4, c6, cssl, ct⟩ := c
  rcases mpr with _ | p <;> rcases cssl with _ | sp <;> rcases msp with _ | mp <;>
    dsimp only [mergeStep, coreStep, stepProtocol, stepCIDR, stepSSL, stepCerts,
      definedCIDRs, stateCIDRsDefined, awsStringValue, eraseC, eraseCfg] <;>
    split_ifs <;>
    simp_all [Except.map, strSetInsertMany, eraseC]
  all_goals try (by_cases hx : mp = sp <;> try simp_all [Except.map, eraseC])
  all_goals try (by_cases hx2 : (¬v4 = [] ∨ ¬v6 = []) <;> try simp_all [Except.map, eraseC])

theorem mergeLoop_erase (l : List (NamespacedName × listenPortConfig)) (st : mergeState) :
    mergeLoop (eraseC st) (eraseL l) = Except.map eraseC (mergeLoop st l) := by
  induction l generalizing st with
  | nil => simp [mergeLoop, eraseL, Except.map]
  | cons x rest ih =>
      obtain ⟨k, c⟩ := x
      have hel : eraseL ((k, c) :: rest) = (k, eraseCfg c) :: eraseL rest := rfl
      rw [hel, mergeLoop, mergeLoop, mergeStep_erase]
      cases hs : mergeStep st k c with
      | error e => rfl
      | ok st1 => exact ih st1

theorem mergeFinalize_error_iff (dSSL : String) (st : mergeState) (e : String) :
    mergeFinalize dSSL st = .error e ↔ (st.mergedProtocol = none ∧ e = shouldNeverHappenMsg) := by
  constructor
  · intro h
    cases hp : st.mergedProtocol with
    | none =>
        refine ⟨rfl, ?_⟩
        unfold mergeFinalize at h
        rw [hp] at h
        cases h
        rfl
    | some p =>
        rw [mergeFinalize_some dSSL st p hp] at h
        cases h
  · rintro ⟨hp, he⟩
    unfold mergeFinalize
    rw [hp, he]

theorem merge_error_iff_of_erase_eq (dSSL : String)
    (l1 l2 : List (NamespacedName × listenPortConfig))
    (hE : eraseL l1 = eraseL l2) (e : String) :
    mergeListenPortConfigs dSSL l1 = .error e ↔ mergeListenPortConfigs dSSL l2 = .error e := by
  have h1 : mergeLoop initMergeState (eraseL l1) = Except.map eraseC (mergeLoop initMergeState l1) :=
    mergeLoop_erase l1 initMergeState
  have h2 : mergeLoop initMergeState (eraseL l2) = Except.map eraseC (mergeLoop initMergeState l2) :=
    mergeLoop_erase l2 initMergeState
  rw [hE] at h1
  have hmap : Except.map eraseC (mergeLoop initMergeState l1) =
      Except.map eraseC (mergeLoop initMergeState l2) := by rw [← h1, ← h2]
  rw [mergeListenPortConfigs, mergeListenPortConfigs]
  cases ha : mergeLoop initMergeState l1 with
  | error e1 =>
      cases hb : mergeLoop initMergeState l2 with
      | error e2 =>
          rw [ha, hb] at hmap
          simp [Except.map] at hmap
          subst hmap
          exact Iff.rfl
      | ok st2 =>
          rw [ha, hb] at hmap
          simp [Except.map] at hmap
  | ok st1 =>
      cases hb : mergeLoop initMergeState l2 with
      | error e2 =>
          rw [ha, hb] at hmap
          simp [Except.map] at hmap
      | ok st2 =>
          rw [ha, hb] at hmap
          simp [Except.map] at hmap
          have hpeq : st1.mergedProtocol = st2.mergedProtocol := by
            have := congrArg mergeState.mergedProtocol hmap
            simpa [eraseC] using this
          dsimp only
          rw [mergeFinalize_error_iff, mergeFinalize_error_iff, hpeq]

end MLB

namespace MLB

/-- C8: the merged TLS certificate identifiers are exactly the union of
all members certificates with duplicates collapsed, independent of
iteration order, and certificate differences never cause an error:
replacing every member's certificate list arbitrarily changes no error
outcome. -/
theorem C8_tls_cert_union (dSSL : String) :
    (∀ (l : List (NamespacedName × listenPortConfig)) (cfg : listenPortConfig),
      mergeListenPortConfigs dSSL l = .ok cfg →
        (∀ x, x ∈ cfg.tlsCerts ↔ ∃ m ∈ l, x ∈ m.2.tlsCerts) ∧ cfg.tlsCerts.Nodup) ∧
    (∀ (l1 l2 : List (NamespacedName × listenPortConfig)) (cfg1 cfg2 : listenPortConfig),
      l1.Perm l2 →
      mergeListenPortConfigs dSSL l1 = .ok cfg1 →
      mergeListenPortConfigs dSSL l2 = .ok cfg2 →
      cfg1.tlsCerts = cfg2.tlsCerts) ∧
    (∀ (f : NamespacedName × listenPortConfig → List String)
       (l : List (NamespacedName × listenPortConfig)) (e : String),
      mergeListenPortConfigs dSSL (l.map (fun x => (x.1, { x.2 with tlsCerts := f x }))) =
          .error e ↔ mergeListenPortConfigs dSSL l = .error e) := by
  have hcerts : ∀ (l : List (NamespacedName × listenPortConfig)) (cfg : listenPortConfig),
      mergeListenPortConfigs dSSL l = .ok cfg → cfg.tlsCerts = strSetList (certsAcc [] l) := by
    intro l cfg h
    obtain ⟨st, hloop, hfin⟩ := merge_ok_inv dSSL l cfg h
    obtain ⟨p, _, hcfg⟩ := mergeFinalize_ok_inv dSSL st cfg hfin
    have hacc : st.mergedTLSCerts = certsAcc [] l := mergeLoop_ok_certs l initMergeState st hloop
    rw [hcfg]
    simp [hacc]
  refine ⟨?_, ?_, ?_⟩
  · intro l cfg h
    rw [hcerts l cfg h]
    constructor
    · intro x
      rw [strSetList_mem, certsAcc_mem]
      simp
    · exact strSetList_nodup _ (certsAcc_nodup l [] List.nodup_nil)
  · intro l1 l2 cfg1 cfg2 hperm h1 h2
    rw [hcerts l1 cfg1 h1, hcerts l2 cfg2 h2]
    apply strSetList_eq_of_mem_iff _ _ (certsAcc_nodup l1 [] List.nodup_nil)
      (certsAcc_nodup l2 [] List.nodup_nil)
    intro x
    rw [certsAcc_mem, certsAcc_mem]
    constructor
    · rintro (h | ⟨m, hm, hx⟩)
      · cases h
      · exact Or.inr ⟨m, hperm.mem_iff.mp hm, hx⟩
    · rintro (h | ⟨m, hm, hx⟩)
      · cases h
      · exact Or.inr ⟨m, hperm.mem_iff.mpr hm, hx⟩
  · intro f l e
    apply merge_error_iff_of_erase_eq
    rw [eraseL, eraseL, List.map_map]
    apply List.map_congr_left
    intro x _
    rfl

/-- Witness for C8: two members with distinct singleton certificate
sets merge to the two-element union in either iteration order; with a
protocol conflict, replacing the certificates changes nothing about the
error. -/
theorem C8_tls_cert_union_witness :
    ((∀ x, x ∈ (listenPortConfig.mk "HTTP" ["0.0.0.0/0"] ["::/0"] none ["x", "y"]).tlsCerts ↔
        ∃ m ∈ [((⟨"nsa", "a"⟩ : NamespacedName), listenPortConfig.mk "HTTP" [] [] none ["y"]),
               ((⟨"nsb", "b"⟩ : NamespacedName), listenPortConfig.mk "HTTP" [] [] none ["x"])],
          x ∈ m.2.tlsCerts) ∧
      (listenPortConfig.mk "HTTP" ["0.0.0.0/0"] ["::/0"] none ["x", "y"]).tlsCerts.Nodup) ∧
    (listenPortConfig.mk "HTTP" ["0.0.0.0/0"] ["::/0"] none ["x", "y"]).tlsCerts =
      (listenPortConfig.mk "HTTP" ["0.0.0.0/0"] ["::/0"] none ["x", "y"]).tlsCerts ∧
    (mergeListenPortConfigs "ELBSecurityPolicy-2016-08"
        ([((⟨"nsa", "a"⟩ : NamespacedName), listenPortConfig.mk "HTTP" [] [] none ["y"]),
          ((⟨"nsb", "b"⟩ : NamespacedName), listenPortConfig.mk "HTTPS" [] [] none ["x"])].map
          (fun x => (x.1, { x.2 with tlsCerts := ["z"] }))) =
        .error (protocolConflictMsg ⟨"nsa", "a"⟩ "HTTP" ⟨"nsb", "b"⟩ "HTTPS") ↔
      mergeListenPortConfigs "ELBSecurityPolicy-2016-08"
        [((⟨"nsa", "a"⟩ : NamespacedName), listenPortConfig.mk "HTTP" [] [] none ["y"]),
         ((⟨"nsb", "b"⟩ : NamespacedName), listenPortConfig.mk "HTTPS" [] [] none ["x"])] =
        .error (protocolConflictMsg ⟨"nsa", "a"⟩ "HTTP" ⟨"nsb", "b"⟩ "HTTPS")) := by
  refine ⟨(C8_tls_cert_union "ELBSecurityPolicy-2016-08").1
      [((⟨"nsa", "a"⟩ : NamespacedName), listenPortConfig.mk "HTTP" [] [] none ["y"]),
       ((⟨"nsb", "b"⟩ : NamespacedName), listenPortConfig.mk "HTTP" [] [] none ["x"])]
      (listenPortConfig.mk "HTTP" ["0.0.0.0/0"] ["::/0"] none ["x", "y"]) (by decide),
    (C8_tls_cert_union "ELBSecurityPolicy-2016-08").2.1
      [((⟨"nsa", "a"⟩ : NamespacedName), listenPortConfig.mk "HTTP" [] [] none ["y"]),
       ((⟨"nsb", "b"⟩ : NamespacedName), listenPortConfig.mk "HTTP" [] [] none ["x"])]
      [((⟨"nsb", "b"⟩ : NamespacedName), listenPortConfig.mk "HTTP" [] [] none ["x"]),
       ((⟨"nsa", "a"⟩ : NamespacedName), listenPortConfig.mk "HTTP" [] [] none ["y"])]
      (listenPortConfig.mk "HTTP" ["0.0.0.0/0"] ["::/0"] none ["x", "y"])
      (listenPortConfig.mk "HTTP" ["0.0.0.0/0"] ["::/0"] none ["x", "y"])
      (List.Perm.swap _ _ _) (by decide) (by decide),
    (C8_tls_cert_union "ELBSecurityPolicy-2016-08").2.2
      (fun _ => ["z"])
      [((⟨"nsa", "a"⟩ : NamespacedName), listenPortConfig.mk "HTTP" [] [] none ["y"]),
       ((⟨"nsb", "b"⟩ : NamespacedName), listenPortConfig.mk "HTTPS" [] [] none ["x"])]
      (protocolConflictMsg ⟨"nsa", "a"⟩ "HTTP" ⟨"nsb", "b"⟩ "HTTPS")⟩

end MLB

namespace MLB

theorem firstSSL_some (l : List (NamespacedName × listenPortConfig)) (v : String)
    (h : firstSSL l = some v) : ∃ m ∈ l, m.2.sslPolicy = some v := by
  induction l with
  | nil => simp [firstSSL] at h
  | cons x rest ih =>
      rw [firstSSL, List.findSome?_cons] at h
      cases hx : x.2.sslPolicy with
      | none =>
          rw [hx] at h
          obtain ⟨m, hm, hv⟩ := ih h
          exact ⟨m, List.mem_cons_of_mem _ hm, hv⟩
      | some w =>
          rw [hx] at h
          cases h
          exact ⟨x, List.mem_cons_self _ _, hx⟩

theorem merge_ok_nonempty (dSSL : String) (l : List (NamespacedName × listenPortConfig))
    (cfg : listenPortConfig) (h : mergeListenPortConfigs dSSL l = .ok cfg) : l ≠ [] := by
  intro hnil
  subst hnil
  cases h

theorem merge_ok_protosOK (dSSL : String) (l : List (NamespacedName × listenPortConfig))
    (cfg : listenPortConfig) (h : mergeListenPortConfigs dSSL l = .ok cfg) :
    protosOK cfg.protocol l := by
  obtain ⟨st, hloop, hfin⟩ := merge_ok_inv dSSL l cfg h
  obtain ⟨p, hp, hcfg⟩ := mergeFinalize_ok_inv dSSL st cfg hfin
  have hcp : cfg.protocol = p := by rw [hcfg]
  cases l with
  | nil => cases h
  | cons x rest =>
      obtain ⟨k, c⟩ := x
      obtain ⟨hps, _, hall⟩ := mergeLoop_ok_protocol_head rest initMergeState st k c rfl hloop
      have hpc : p = c.protocol := by
        rw [hps] at hp
        exact (Option.some.injEq _ _).mp hp.symm
      intro m hm
      rcases List.mem_cons.mp hm with hm | hm
      · rw [hm, hcp, hpc]
      · rw [hcp, hpc]
        exact hall m hm

theorem merge_ok_certs_eq (dSSL : String) (l : List (NamespacedName × listenPortConfig))
    (cfg : listenPortConfig) (h : mergeListenPortConfigs dSSL l = .ok cfg) :
    cfg.tlsCerts = strSetList (certsAcc [] l) := by
  obtain ⟨st, hloop, hfin⟩ := merge_ok_inv dSSL l cfg h
  obtain ⟨p, _, hcfg⟩ := mergeFinalize_ok_inv dSSL st cfg hfin
  have hacc : st.mergedTLSCerts = certsAcc [] l := mergeLoop_ok_certs l initMergeState st hloop
  rw [hcfg]
  simp [hacc]

theorem merge_perm_certs (dSSL : String)
    (l1 l2 : List (NamespacedName × listenPortConfig)) (cfg1 cfg2 : listenPortConfig)
    (hperm : l1.Perm l2)
    (h1 : mergeListenPortConfigs dSSL l1 = .ok cfg1)
    (h2 : mergeListenPortConfigs dSSL l2 = .ok cfg2) :
    cfg1.tlsCerts = cfg2.tlsCerts := by
  rw [merge_ok_certs_eq dSSL l1 cfg1 h1, merge_ok_certs_eq dSSL l2 cfg2 h2]
  apply strSetList_eq_of_mem_iff _ _ (certsAcc_nodup l1 [] List.nodup_nil)
    (certsAcc_nodup l2 [] List.nodup_nil)
  intro x
  rw [certsAcc_mem, certsAcc_mem]
  constructor
  · rintro (h | ⟨m, hm, hx⟩)
    · cases h
    · exact Or.inr ⟨m, hperm.mem_iff.mp hm, hx⟩
  · rintro (h | ⟨m, hm, hx⟩)
    · cases h
    · exact Or.inr ⟨m, hperm.mem_iff.mpr hm, hx⟩

theorem two_mem_le_countP (l : List (NamespacedName × listenPortConfig))
    (m1 m2 : NamespacedName × listenPortConfig)
    (h1 : m1 ∈ l) (h2 : m2 ∈ l) (hne : m1 ≠ m2)
    (hd1 : definedCIDRs m1.2 = true) (hd2 : definedCIDRs m2.2 = true) :
    2 ≤ cidrCount l := by
  rw [cidrCount, List.countP_eq_length_filter]
  have hf1 : m1 ∈ l.filter (fun x => definedCIDRs x.2) := List.mem_filter.mpr ⟨h1, hd1⟩
  have hf2 : m2 ∈ l.filter (fun x => definedCIDRs x.2) := List.mem_filter.mpr ⟨h2, hd2⟩
  have hmem : m2 ∈ (l.filter (fun x => definedCIDRs x.2)).erase m1 :=
    (List.mem_erase_of_ne (fun hx => hne hx.symm)).mpr hf2
  have hlen := List.length_erase_of_mem hf1
  have hpos : 0 < ((l.filter (fun x => definedCIDRs x.2)).erase m1).length :=
    List.length_pos.mpr (fun hx => by rw [hx] at hmem; cases hmem)
  omega

theorem firstCIDRDef_mem (l : List (NamespacedName × listenPortConfig))
    (m : NamespacedName × listenPortConfig) (h : firstCIDRDef l = some m) :
    m ∈ l ∧ definedCIDRs m.2 = true := by
  have hm := List.mem_of_find?_eq_some h
  have hd := List.find?_some h
  exact ⟨hm, by simpa using hd⟩

theorem merge_ok_iff (dSSL : String) (l : List (NamespacedName × listenPortConfig)) :
    (∃ cfg, mergeListenPortConfigs dSSL l = .ok cfg) ↔
      (l ≠ [] ∧ (∃ p, protosOK p l) ∧ cidrCount l ≤ 1 ∧ (∃ v, sslAgreeVal v l)) := by
  constructor
  · rintro ⟨cfg, h⟩
    refine ⟨merge_ok_nonempty dSSL l cfg h, ⟨cfg.protocol, merge_ok_protosOK dSSL l cfg h⟩, ?_, ?_⟩
    · obtain ⟨st, hloop, _⟩ := merge_ok_inv dSSL l cfg h
      exact (mergeLoop_ok_cidr_undefined l initMergeState st rfl hloop).1
    · obtain ⟨st, hloop, _⟩ := merge_ok_inv dSSL l cfg h
      obtain ⟨_, hall⟩ := mergeLoop_ok_ssl_none l initMergeState st rfl hloop
      cases hf : firstSSL l with
      | none =>
          refine ⟨"", ?_⟩
          intro x hx
          rcases hall x hx with hx2 | hx2
          · exact Or.inl hx2
          · rw [hf] at hx2; exact Or.inl hx2
      | some v =>
          refine ⟨v, ?_⟩
          intro x hx
          rcases hall x hx with hx2 | hx2
          · exact Or.inl hx2
          · rw [hf] at hx2; exact Or.inr hx2
  · rintro ⟨hne, ⟨p, hpl⟩, hcount, ⟨v, hsl⟩⟩
    obtain ⟨st, hloop⟩ := mergeLoop_ok_of l initMergeState p v (Or.inl rfl) hpl
      (fun hx => absurd hx (by decide)) hcount (Or.inl rfl) hsl
    cases l with
    | nil => exact absurd rfl hne
    | cons x rest =>
        obtain ⟨k, c⟩ := x
        obtain ⟨hps, _, _⟩ := mergeLoop_ok_protocol_head rest initMergeState st k c rfl hloop
        exact ⟨_, by
          rw [merge_eq_of_loop_ok dSSL _ st hloop]
          exact mergeFinalize_some dSSL st c.protocol hps⟩

end MLB

namespace MLB

theorem merge_ok_cidrs (dSSL : String) (l : List (NamespacedName × listenPortConfig))
    (cfg : listenPortConfig) (h : mergeListenPortConfigs dSSL l = .ok cfg) :
    (firstCIDRDef l = none →
      cfg.inboundCIDRv4s = ["0.0.0.0/0"] ∧ cfg.inboundCIDRv6s = ["::/0"]) ∧
    (∀ m, firstCIDRDef l = some m →
      cfg.inboundCIDRv4s = m.2.inboundCIDRv4s ∧ cfg.inboundCIDRv6s = m.2.inboundCIDRv6s) := by
  obtain ⟨st, hloop, hfin⟩ := merge_ok_inv dSSL l cfg h
  obtain ⟨p, hp, hcfg⟩ := mergeFinalize_ok_inv dSSL st cfg hfin
  obtain ⟨_, hnone, hsome⟩ := mergeLoop_ok_cidr_undefined l initMergeState st rfl hloop
  constructor
  · intro hfc
    obtain ⟨h4, h6⟩ := hnone hfc
    have hsd : stateCIDRsDefined st = false := by
      rw [stateCIDRsDefined, h4, h6]
      rfl
    rw [hcfg]
    simp [hsd, h4, h6, initMergeState]
  · intro m hfc
    obtain ⟨h4, h6⟩ := hsome m.1 m.2 (by rw [Prod.mk.eta]; exact hfc)
    have hdm : definedCIDRs m.2 = true := (firstCIDRDef_mem l m hfc).2
    have hsd : stateCIDRsDefined st = true := by
      rw [stateCIDRsDefined, h4, h6]
      rw [definedCIDRs] at hdm
      exact hdm
    rw [hcfg]
    simp [hsd, h4, h6]

theorem merge_ok_ssl_agree (dSSL : String) (l : List (NamespacedName × listenPortConfig))
    (cfg : listenPortConfig) (h : mergeListenPortConfigs dSSL l = .ok cfg) :
    ∀ x ∈ l, x.2.sslPolicy = none ∨ x.2.sslPolicy = firstSSL l := by
  obtain ⟨st, hloop, _⟩ := merge_ok_inv dSSL l cfg h
  exact (mergeLoop_ok_ssl_none l initMergeState st rfl hloop).2

theorem merge_ok_ssl (dSSL : String) (l : List (NamespacedName × listenPortConfig))
    (cfg : listenPortConfig) (h : mergeListenPortConfigs dSSL l = .ok cfg) :
    cfg.sslPolicy =
      match firstSSL l with
      | some v => some v
      | none => if cfg.protocol == ProtocolHTTPS then some dSSL else none := by
  obtain ⟨st, hloop, hfin⟩ := merge_ok_inv dSSL l cfg h
  obtain ⟨p, hp, hcfg⟩ := mergeFinalize_ok_inv dSSL st cfg hfin
  obtain ⟨hfs, _⟩ := mergeLoop_ok_ssl_none l initMergeState st rfl hloop
  cases hf : firstSSL l with
  | some v =>
      rw [hf] at hfs
      rw [hcfg]
      simp [hfs]
  | none =>
      rw [hf] at hfs
      rw [hcfg]
      simp [hfs]

/-- C4 counterexample: the same two-member set iterated in two orders
produces two different conflict errors (each order names the first-seen
member as the candidate), so the outcome on conflict is not identical
across iteration orders. -/
theorem C4_counterexample :
    ([((⟨"nsa", "a"⟩ : NamespacedName), listenPortConfig.mk "HTTP" [] [] none []),
      ((⟨"nsb", "b"⟩ : NamespacedName), listenPortConfig.mk "HTTPS" [] [] none [])].Perm
     [((⟨"nsb", "b"⟩ : NamespacedName), listenPortConfig.mk "HTTPS" [] [] none []),
      ((⟨"nsa", "a"⟩ : NamespacedName), listenPortConfig.mk "HTTP" [] [] none [])]) ∧
    mergeListenPortConfigs "ELBSecurityPolicy-2016-08"
      [((⟨"nsa", "a"⟩ : NamespacedName), listenPortConfig.mk "HTTP" [] [] none []),
       ((⟨"nsb", "b"⟩ : NamespacedName), listenPortConfig.mk "HTTPS" [] [] none [])] ≠
    mergeListenPortConfigs "ELBSecurityPolicy-2016-08"
      [((⟨"nsb", "b"⟩ : NamespacedName), listenPortConfig.mk "HTTPS" [] [] none []),
       ((⟨"nsa", "a"⟩ : NamespacedName), listenPortConfig.mk "HTTP" [] [] none [])] :=
  ⟨List.Perm.swap _ _ _, by decide⟩

/-- C4 amended: the merge is deterministic given an iteration order,
and order-independent in its success or failure outcome and in the
merged configuration on success: any two iteration orders of the same
member set either both fail or both succeed with identical merged
configs. On conflict, however, the specific error (which members are
named in which roles) depends on the iteration order. -/
theorem C4_order_independence_amended (dSSL : String)
    (l1 l2 : List (NamespacedName × listenPortConfig)) (hperm : l1.Perm l2) :
    ((∃ cfg, mergeListenPortConfigs dSSL l1 = .ok cfg) ↔
      (∃ cfg, mergeListenPortConfigs dSSL l2 = .ok cfg)) ∧
    (∀ cfg1 cfg2, mergeListenPortConfigs dSSL l1 = .ok cfg1 →
      mergeListenPortConfigs dSSL l2 = .ok cfg2 → cfg1 = cfg2) := by
  constructor
  · rw [merge_ok_iff, merge_ok_iff]
    have hcnt : cidrCount l1 = cidrCount l2 := hperm.countP_eq _
    constructor
    · rintro ⟨hne, ⟨p, hpl⟩, hc, ⟨v, hsl⟩⟩
      refine ⟨?_, ⟨p, fun x hx => hpl x (hperm.mem_iff.mpr hx)⟩, by omega,
        ⟨v, fun x hx => hsl x (hperm.mem_iff.mpr hx)⟩⟩
      intro h2
      subst h2
      exact hne hperm.eq_nil
    · rintro ⟨hne, ⟨p, hpl⟩, hc, ⟨v, hsl⟩⟩
      refine ⟨?_, ⟨p, fun x hx => hpl x (hperm.mem_iff.mp hx)⟩, by omega,
        ⟨v, fun x hx => hsl x (hperm.mem_iff.mp hx)⟩⟩
      intro h1
      subst h1
      exact hne hperm.symm.eq_nil
  · intro cfg1 cfg2 h1 h2
    have hprot : cfg1.protocol = cfg2.protocol := by
      cases hl : l1 with
      | nil => rw [hl] at h1; cases h1
      | cons x rest =>
          have hx1 : x ∈ l1 := by rw [hl]; exact List.mem_cons_self _ _
          have ha := merge_ok_protosOK dSSL l1 cfg1 h1 x hx1
          have hb := merge_ok_protosOK dSSL l2 cfg2 h2 x (hperm.mem_iff.mp hx1)
          rw [← ha, ← hb]
    have hcount : cidrCount l1 ≤ 1 := by
      obtain ⟨st, hloop, _⟩ := merge_ok_inv dSSL l1 cfg1 h1
      exact (mergeLoop_ok_cidr_undefined l1 initMergeState st rfl hloop).1
    have hcidr : cfg1.inboundCIDRv4s = cfg2.inboundCIDRv4s ∧
        cfg1.inboundCIDRv6s = cfg2.inboundCIDRv6s := by
      obtain ⟨hn1, hs1⟩ := merge_ok_cidrs dSSL l1 cfg1 h1
      obtain ⟨hn2, hs2⟩ := merge_ok_cidrs dSSL l2 cfg2 h2
      cases hf1 : firstCIDRDef l1 with
      | none =>
          have hf2 : firstCIDRDef l2 = none := by
            rw [firstCIDRDef, List.find?_eq_none]
            intro a ha
            have := List.find?_eq_none.mp hf1 a (hperm.mem_iff.mpr ha)
            simpa using this
          obtain ⟨g11, g12⟩ := hn1 hf1
          obtain ⟨g21, g22⟩ := hn2 hf2
          rw [g11, g12, g21, g22]
          exact ⟨rfl, rfl⟩
      | some m =>
          obtain ⟨hm1, hd1⟩ := firstCIDRDef_mem l1 m hf1
          have hsome2 : (l2.find? (fun x => definedCIDRs x.2)).isSome := by
            rw [List.find?_isSome]
            exact ⟨m, hperm.mem_iff.mp hm1, by simpa using hd1⟩
          obtain ⟨m2, hf2⟩ := Option.isSome_iff_exists.mp hsome2
          obtain ⟨hm2, hd2⟩ := firstCIDRDef_mem l2 m2 hf2
          have hmm : m = m2 := by
            by_contra hne
            have := two_mem_le_countP l1 m m2 hm1 (hperm.mem_iff.mpr hm2) hne hd1 hd2
            omega
          obtain ⟨g11, g12⟩ := hs1 m hf1
          obtain ⟨g21, g22⟩ := hs2 m2 hf2
          rw [g11, g12, g21, g22, hmm]
          exact ⟨rfl, rfl⟩
    have hssl : cfg1.sslPolicy = cfg2.sslPolicy := by
      have ha := merge_ok_ssl dSSL l1 cfg1 h1
      have hb := merge_ok_ssl dSSL l2 cfg2 h2
      cases hf1 : firstSSL l1 with
      | some v =>
          obtain ⟨m, hm, hmv⟩ := firstSSL_some l1 v hf1
          have hf2 : firstSSL l2 = some v := by
            rcases merge_ok_ssl_agree dSSL l2 cfg2 h2 m (hperm.mem_iff.mp hm) with hx | hx
            · rw [hmv] at hx; cases hx
            · rw [← hx, hmv]
          rw [hf1] at ha
          rw [hf2] at hb
          rw [ha, hb]
      | none =>
          have hf2 : firstSSL l2 = none := by
            rw [firstSSL, List.findSome?_eq_none]
            intro a ha2
            exact List.findSome?_eq_none.mp hf1 a (hperm.mem_iff.mpr ha2)
          rw [hf1] at ha
          rw [hf2] at hb
          rw [ha, hb, hprot]
    have hcerts : cfg1.tlsCerts = cfg2.tlsCerts :=
      merge_perm_certs dSSL l1 l2 cfg1 cfg2 hperm h1 h2
    cases cfg1
    cases cfg2
    simp only [listenPortConfig.mk.injEq]
    exact ⟨hprot, hcidr.1, hcidr.2, hssl, hcerts⟩

/-- Witness for C4 amended at a concrete two-member set and its swap. -/
theorem C4_order_independence_amended_witness :
    (∃ cfg, mergeListenPortConfigs "ELBSecurityPolicy-2016-08"
      [((⟨"nsa", "a"⟩ : NamespacedName), listenPortConfig.mk "HTTP" [] [] none ["x"]),
       ((⟨"nsb", "b"⟩ : NamespacedName), listenPortConfig.mk "HTTP" [] [] (some "s") [])] = .ok cfg) ↔
    (∃ cfg, mergeListenPortConfigs "ELBSecurityPolicy-2016-08"
      [((⟨"nsb", "b"⟩ : NamespacedName), listenPortConfig.mk "HTTP" [] [] (some "s") []),
       ((⟨"nsa", "a"⟩ : NamespacedName), listenPortConfig.mk "HTTP" [] [] none ["x"])] = .ok cfg) :=
  (C4_order_independence_amended "ELBSecurityPolicy-2016-08" _ _ (List.Perm.swap _ _ _)).1

end MLB

namespace MLB

theorem collectMemberConfigs_error (compute : NamespacedName →
      Except String (List (Int × listenPortConfig)))
    (pre post : List NamespacedName) (m : NamespacedName) (e : String)
    (hpre : ∀ m2 ∈ pre, ∃ v, compute m2 = .ok v)
    (hm : compute m = .error e) :
    collectMemberConfigs compute (pre ++ m :: post) = .error e := by
  induction pre with
  | nil =>
      rw [List.nil_append, collectMemberConfigs, hm]
  | cons q rest ih =>
      obtain ⟨v, hv⟩ := hpre q (List.mem_cons_self _ _)
      rw [List.cons_append, collectMemberConfigs, hv,
        ih (fun m2 hm2 => hpre m2 (List.mem_cons_of_mem _ hm2))]

/-- C6 counterexample: a per-member collaborator failure aborts the
build, but the error `run` returns is the collaborator error verbatim:
it does not mention the failing member namespace or name at all (no
wrapping happens on this path; only merge errors are wrapped, with the
port). -/
theorem C6_counterexample :
    runListenPortPhase "ELBSecurityPolicy-2016-08"
      (fun _ => .error "failed to resolve certificates")
      [⟨"echo-ns", "ing-1"⟩] = .error "failed to resolve certificates" ∧
    strContainsSub "failed to resolve certificates" "echo-ns" = false ∧
    strContainsSub "failed to resolve certificates" "ing-1" = false := by
  refine ⟨by rfl, by decide, by decide⟩

/-- C6 amended: when the per-member config computation fails for a
member (all earlier members in slice order having succeeded), the build
task aborts the whole build and returns the collaborator error
verbatim, with no member identity attached. -/
theorem C6_member_error_aborts_build_verbatim (dSSL : String)
    (compute : NamespacedName → Except String (List (Int × listenPortConfig)))
    (pre post : List NamespacedName) (m : NamespacedName) (e : String)
    (hpre : ∀ m2 ∈ pre, ∃ v, compute m2 = .ok v)
    (hm : compute m = .error e) :
    runListenPortPhase dSSL compute (pre ++ m :: post) = .error e := by
  rw [runListenPortPhase, collectMemberConfigs_error compute pre post m e hpre hm]

/-- Witness for C6 amended: a single failing member returns its
collaborator error unchanged. -/
theorem C6_member_error_aborts_build_verbatim_witness :
    runListenPortPhase "ELBSecurityPolicy-2016-08"
      (fun _ => .error "failed to resolve certificates")
      ([] ++ ⟨"echo-ns", "ing-1"⟩ :: []) = .error "failed to resolve certificates" :=
  C6_member_error_aborts_build_verbatim "ELBSecurityPolicy-2016-08"
    (fun _ => .error "failed to resolve certificates") [] [] ⟨"echo-ns", "ing-1"⟩
    "failed to resolve certificates" (fun m2 hm2 => absurd hm2 (by simp)) rfl

end MLB

namespace Shield

/-- C3: when the live record for a desired protection exists but does
not carry the controller ownership marker, one synthesizer pass issues
zero create calls and zero delete calls for that resource, whatever the
desired activation flag is, and returns no error. -/
theorem C3_synthesizer_ignores_foreign
    (getProtection : String → Except String (Option ProtectionInfo))
    (p : ProtectionSpec) (info : ProtectionInfo)
    (hlive : getProtection p.resourceARN = .ok (some info))
    (hforeign : info.name ≠ ownershipMarker) :
    synthesizeOne getProtection p = .ok [] ∧
      synthesize getProtection [p] = .ok [] := by
  have h1 : synthesizeOne getProtection p = .ok [] := by
    rw [synthesizeOne, hlive]
    simp [hforeign]
  refine ⟨h1, ?_⟩
  rw [synthesize, h1, synthesize]
  rfl

/-- Witness for C3 at the scenario of the repository test
(`TestProtectionSynthesizerIgnoresUnknownProtection`), plus the same
live record with the activation flag set. -/
theorem C3_synthesizer_ignores_foreign_witness :
    (synthesize
      (fun a => if a = "arn" then .ok (some ⟨"managed by someone-else", "id"⟩) else .ok none)
      [⟨false, "arn"⟩] = .ok []) ∧
    (synthesize
      (fun a => if a = "arn" then .ok (some ⟨"managed by someone-else", "id"⟩) else .ok none)
      [⟨true, "arn"⟩] = .ok []) :=
  ⟨(C3_synthesizer_ignores_foreign
      (fun a => if a = "arn" then .ok (some ⟨"managed by someone-else", "id"⟩) else .ok none)
      ⟨false, "arn"⟩ ⟨"managed by someone-else", "id"⟩ (by rfl) (by decide)).2,
   (C3_synthesizer_ignores_foreign
      (fun a => if a = "arn" then .ok (some ⟨"managed by someone-else", "id"⟩) else .ok none)
      ⟨true, "arn"⟩ ⟨"managed by someone-else", "id"⟩ (by rfl) (by decide)).2⟩

end Shield
